import Mathlib

/-!
# Hot-block tracker of the jbd2 journal (`fs/jbd2/hotness.c`)

A shallow embedding of the tracker: the red-black index keyed by block number,
the lookup and insert descents, and the journal-facing operations
(`jbd2_init_hot_blocks`, `jbd2_record_block_access`, `jbd2_print_hot_blocks`,
`jbd2_reset_all_block_counts`, `jbd2_cleanup_hot_blocks`).

Conventions.
* A `struct rb_node *` into the tree is a subtree together with the list of
  ancestors above it (innermost first), so that "follow the parent pointer" and
  "store through the pointer" are both available.
* `unsigned int count` is a natural number kept below `2 ^ 32`; `count++` wraps.
* `kmalloc` / `kzalloc` may fail: the outcome is an explicit boolean argument.
* `printk` appends to the list of emitted lines, returned next to the state.
-/

namespace Hotness

/-! ## Data model -/

/-- Colour of a tree node (`RB_RED` is 0 and `RB_BLACK` is 1 in the kernel). -/
inductive rb_color where
  | RB_RED
  | RB_BLACK
deriving DecidableEq, Repr

/-- The payload of `struct block_count`: the key and its access counter. -/
structure block_count where
  blocknr : Nat
  count : Nat
deriving DecidableEq, Repr

/-- A `struct rb_node *`: either `NULL` or a node with a colour, two child links
and the `struct block_count` that embeds it (`rb_entry`). -/
inductive rb_node where
  | NULL
  | node (color : rb_color) (rb_left : rb_node) (bc : block_count) (rb_right : rb_node)
deriving DecidableEq, Repr

/-- Which child link of a parent was followed. -/
inductive rb_side where
  | left
  | right
deriving DecidableEq, Repr

/-- One ancestor as seen from the child link that was followed: the ancestor's
colour and entry, and the subtree hanging off its other link. -/
structure rb_frame where
  side : rb_side
  color : rb_color
  bc : block_count
  other : rb_node
deriving DecidableEq, Repr

/-- A non-NULL `struct rb_node *` (equivalently the `struct block_count *` around
it): the node it points at and the chain of parents above it. -/
structure rb_ptr where
  color : rb_color
  rb_left : rb_node
  bc : block_count
  rb_right : rb_node
  up : List rb_frame
deriving DecidableEq, Repr

/-- The tracker, `struct hot_blocks_track`; `lock` is `true` while the spinlock
is held. -/
structure hot_blocks_track where
  root : rb_node
  lock : Bool
  window_size : Nat
  hot_threshold : Nat
deriving DecidableEq, Repr

/-- The part of `journal_t` the tracker code touches. -/
structure journal_t where
  j_devname : String
  j_hot_track : Option hot_blocks_track
deriving DecidableEq, Repr

/-- A line written by `printk` in `jbd2_print_hot_blocks`. -/
inductive printk_line where
  | header (devname : String)
  | block (blocknr : Nat) (count : Nat)
deriving DecidableEq, Repr

/-! ## Constants -/

/-- Errno values used by the tracker. -/
def ENOMEM : Int := 12

/-- Errno for "file exists", the duplicate-key signal of the insert path. -/
def EEXIST : Int := 17

/-- Errno for "invalid argument", returned when no tracker is installed. -/
def EINVAL : Int := 22

/-- Modelled from the spec: the declaration of `count` lives in `linux/jbd2.h`,
which is not among the sources; the spec calls it an unsigned integer and the
`%u` conversion at `hotness.c:108` fixes it as `unsigned int`, 32 bits wide. -/
def COUNT_MOD : Nat := 2 ^ 32

/-! ## Tree plumbing -/

/-- Put a subtree back under the ancestor it was taken from. -/
def rb_frame.plug (f : rb_frame) (t : rb_node) : rb_node :=
  match f.side with
  | rb_side.left => rb_node.node f.color t f.bc f.other
  | rb_side.right => rb_node.node f.color f.other f.bc t

/-- Rebuild the whole tree from a subtree and the ancestors above it. -/
def rb_zip (t : rb_node) : List rb_frame → rb_node
  | [] => t
  | f :: up => rb_zip (f.plug t) up

/-- The node a pointer points at. -/
def rb_ptr.here (p : rb_ptr) : rb_node :=
  rb_node.node p.color p.rb_left p.bc p.rb_right

/-- The tree after `bc->count = v` through a pointer. -/
def rb_ptr.store_count (p : rb_ptr) (v : Nat) : rb_node :=
  rb_zip (rb_node.node p.color p.rb_left ⟨p.bc.blocknr, v⟩ p.rb_right) p.up

/-- Modelled from the spec: `rb_first` / `rb_next` (`lib/rbtree.c`, not among the
sources) "traverse `index` in ascending key order", an in-order walk: this is
the sequence of entries visited by
`for (node = rb_first(root); node; node = rb_next(node))`. -/
def rb_inorder : rb_node → List block_count
  | rb_node.NULL => []
  | rb_node.node _ l bc r => rb_inorder l ++ bc :: rb_inorder r

/-- Block numbers in walk order. -/
def rb_keys (t : rb_node) : List Nat :=
  (rb_inorder t).map block_count.blocknr

/-- Binary-search-tree order with strictly ordered keys. -/
def rb_bst : rb_node → Prop
  | rb_node.NULL => True
  | rb_node.node _ l bc r =>
    rb_bst l ∧ rb_bst r ∧ (∀ k ∈ rb_keys l, k < bc.blocknr) ∧ (∀ k ∈ rb_keys r, bc.blocknr < k)

/-- Colour a node black (`rb_set_parent_color(.., RB_BLACK)`); `NULL` stays. -/
def rb_set_black : rb_node → rb_node
  | rb_node.NULL => rb_node.NULL
  | rb_node.node _ l bc r => rb_node.node rb_color.RB_BLACK l bc r

/-! ## `find_block_count` (hotness.c:3-18) -/

/-- The `while (node)` loop of `find_block_count`, started at `node` whose
ancestors are `up`. -/
def find_block_count_loop (blocknr : Nat) : rb_node → List rb_frame → Option rb_ptr
  | rb_node.NULL, _ => none
  | rb_node.node c l bc r, up =>
    if blocknr < bc.blocknr then
      find_block_count_loop blocknr l (⟨rb_side.left, c, bc, r⟩ :: up)
    else if blocknr > bc.blocknr then
      find_block_count_loop blocknr r (⟨rb_side.right, c, bc, l⟩ :: up)
    else
      some ⟨c, l, bc, r, up⟩

/-- Lookup of a block number in the tracker index. -/
def find_block_count (hot_track : hot_blocks_track) (blocknr : Nat) : Option rb_ptr :=
  find_block_count_loop blocknr hot_track.root []

/-! ## `insert_block_count` (hotness.c:19-38) -/

/-- The `while (*link)` loop of `insert_block_count`: the empty link reached
(as the chain of parents above it), or `-EEXIST` on an equal key. -/
def insert_block_count_loop (new_bc : block_count) :
    rb_node → List rb_frame → Except Int (List rb_frame)
  | rb_node.NULL, up => Except.ok up
  | rb_node.node c l bc r, up =>
    if new_bc.blocknr < bc.blocknr then
      insert_block_count_loop new_bc l (⟨rb_side.left, c, bc, r⟩ :: up)
    else if new_bc.blocknr > bc.blocknr then
      insert_block_count_loop new_bc r (⟨rb_side.right, c, bc, l⟩ :: up)
    else
      Except.error (-EEXIST)

/-- The freshly linked node of `rb_link_node` (`linux/rbtree.h`):
red, both child links `NULL`, hung at the link that was reached. -/
def rb_link_node (new_bc : block_count) : rb_node :=
  rb_node.node rb_color.RB_RED rb_node.NULL new_bc rb_node.NULL

/-- Modelled from the spec: `rb_insert_color` (`lib/rbtree.c`, not among the
sources), "rebalancing the structure to preserve logarithmic height" by the
red-black colouring and rotation rules. `n` is the red node just linked and
`up` its ancestors; the result is the new root.
* no parent: the node is the root and becomes black;
* black parent: nothing to do;
* red parent, red uncle (case 1): parent and uncle become black, the
  grandparent red, and the walk continues from the grandparent;
* red parent, black uncle: a rotation at the parent when the node is the inner
  child (case 2), then a rotation at the grandparent (case 3).
A red parent without a grandparent does not occur below a black root; the tree
is left as it is there. -/
def rb_insert_color : rb_node → List rb_frame → rb_node
  | n, [] => rb_set_black n
  | n, [p] => p.plug n
  | n, p :: g :: up =>
    match p.color with
    | rb_color.RB_BLACK => rb_zip n (p :: g :: up)
    | rb_color.RB_RED =>
      match g.side, g.other with
      | rb_side.left, rb_node.node rb_color.RB_RED ul ubc ur =>
        rb_insert_color
          (rb_node.node rb_color.RB_RED
            (rb_frame.plug ⟨p.side, rb_color.RB_BLACK, p.bc, p.other⟩ n) g.bc
            (rb_node.node rb_color.RB_BLACK ul ubc ur)) up
      | rb_side.right, rb_node.node rb_color.RB_RED ul ubc ur =>
        rb_insert_color
          (rb_node.node rb_color.RB_RED
            (rb_node.node rb_color.RB_BLACK ul ubc ur) g.bc
            (rb_frame.plug ⟨p.side, rb_color.RB_BLACK, p.bc, p.other⟩ n)) up
      | rb_side.left, uncle =>
        match p.side, n with
        | rb_side.right, rb_node.node _ nl nbc nr =>
          rb_zip (rb_node.node g.color
            (rb_node.node rb_color.RB_RED p.other p.bc (rb_set_black nl)) nbc
            (rb_node.node rb_color.RB_RED (rb_set_black nr) g.bc uncle)) up
        | rb_side.right, rb_node.NULL => rb_zip n (p :: g :: up)
        | rb_side.left, _ =>
          rb_zip (rb_node.node g.color n p.bc
            (rb_node.node rb_color.RB_RED (rb_set_black p.other) g.bc uncle)) up
      | rb_side.right, uncle =>
        match p.side, n with
        | rb_side.left, rb_node.node _ nl nbc nr =>
          rb_zip (rb_node.node g.color
            (rb_node.node rb_color.RB_RED uncle g.bc (rb_set_black nl)) nbc
            (rb_node.node rb_color.RB_RED (rb_set_black nr) p.bc p.other)) up
        | rb_side.left, rb_node.NULL => rb_zip n (p :: g :: up)
        | rb_side.right, _ =>
          rb_zip (rb_node.node g.color
            (rb_node.node rb_color.RB_RED uncle g.bc (rb_set_black p.other)) p.bc n) up

/-- Insert of a new entry: `-EEXIST` and an untouched tree on an equal key,
otherwise 0 with the entry linked at the empty slot and the tree rebalanced. -/
def insert_block_count (hot_track : hot_blocks_track) (new_bc : block_count) :
    Int × hot_blocks_track :=
  match insert_block_count_loop new_bc hot_track.root [] with
  | Except.error e => (e, hot_track)
  | Except.ok link =>
    (0, ⟨rb_insert_color (rb_link_node new_bc) link, hot_track.lock,
      hot_track.window_size, hot_track.hot_threshold⟩)

/-! ## Journal-facing operations -/

/-- Take the spinlock (`spin_lock`). -/
def spin_lock (hot_track : hot_blocks_track) : hot_blocks_track :=
  ⟨hot_track.root, true, hot_track.window_size, hot_track.hot_threshold⟩

/-- Release the spinlock (`spin_unlock`). -/
def spin_unlock (hot_track : hot_blocks_track) : hot_blocks_track :=
  ⟨hot_track.root, false, hot_track.window_size, hot_track.hot_threshold⟩

/-- Replace the index root of a tracker. -/
def set_root (hot_track : hot_blocks_track) (root : rb_node) : hot_blocks_track :=
  ⟨root, hot_track.lock, hot_track.window_size, hot_track.hot_threshold⟩

/-- Initialisation (hotness.c:40-55). `kzalloc_ok` is the outcome of the
allocation; the two constants `JBD2_HOT_BLOCK_WINDOW` and `JBD2_HOT_THRESHOLD`
are defined in `linux/jbd2.h`, not among the sources, and are parameters. -/
def jbd2_init_hot_blocks (JBD2_HOT_BLOCK_WINDOW JBD2_HOT_THRESHOLD : Nat)
    (journal : journal_t) (kzalloc_ok : Bool) : Int × journal_t :=
  if !kzalloc_ok then
    (-ENOMEM, journal)
  else
    (0, ⟨journal.j_devname,
      some ⟨rb_node.NULL, false, JBD2_HOT_BLOCK_WINDOW, JBD2_HOT_THRESHOLD⟩⟩)

/-- Recording one access (hotness.c:58-90). `kmalloc_ok` is the outcome of the
`GFP_ATOMIC` allocation, consulted only when the block is not yet tracked. -/
def jbd2_record_block_access (journal : journal_t) (blocknr : Nat) (kmalloc_ok : Bool) :
    Int × journal_t :=
  match journal.j_hot_track with
  | none => (-EINVAL, journal)
  | some hot_track =>
    let hot_track := spin_lock hot_track
    match find_block_count hot_track blocknr with
    | some bc =>
      (0, ⟨journal.j_devname,
        some (spin_unlock (set_root hot_track (bc.store_count ((bc.bc.count + 1) % COUNT_MOD))))⟩)
    | none =>
      if !kmalloc_ok then
        (-ENOMEM, ⟨journal.j_devname, some (spin_unlock hot_track)⟩)
      else
        let r := insert_block_count hot_track ⟨blocknr, 1⟩
        (r.1, ⟨journal.j_devname, some (spin_unlock r.2)⟩)

/-- The body of the reporting loop over the visited entries: an entry is
printed when `bc->count >= hot_track->hot_threshold`. -/
def print_hot_loop (hot_threshold : Nat) : List block_count → List printk_line
  | [] => []
  | bc :: rest =>
    if bc.count ≥ hot_threshold then
      printk_line.block bc.blocknr bc.count :: print_hot_loop hot_threshold rest
    else
      print_hot_loop hot_threshold rest

/-- Reporting (hotness.c:92-114): the new journal state and the lines printed. -/
def jbd2_print_hot_blocks (journal : journal_t) : journal_t × List printk_line :=
  match journal.j_hot_track with
  | none => (journal, [])
  | some hot_track =>
    let hot_track := spin_lock hot_track
    (⟨journal.j_devname, some (spin_unlock hot_track)⟩,
      printk_line.header journal.j_devname ::
        print_hot_loop hot_track.hot_threshold (rb_inorder hot_track.root))

/-- The reset loop (hotness.c:128-131): `bc->count = 0` at every node visited
by the walk, links and colours untouched. -/
def reset_loop : rb_node → rb_node
  | rb_node.NULL => rb_node.NULL
  | rb_node.node c l bc r => rb_node.node c (reset_loop l) ⟨bc.blocknr, 0⟩ (reset_loop r)

/-- Reset of all counters (hotness.c:117-134). -/
def jbd2_reset_all_block_counts (journal : journal_t) : journal_t :=
  match journal.j_hot_track with
  | none => journal
  | some hot_track =>
    let hot_track := spin_lock hot_track
    ⟨journal.j_devname, some (spin_unlock (set_root hot_track (reset_loop hot_track.root)))⟩

/-! ## Sequences of operations -/

/-- The calls the journal makes on a live tracker between creation and
teardown; a record call carries the outcome of its allocation. -/
inductive hot_op where
  | record (blocknr : Nat) (kmalloc_ok : Bool)
  | print
  | reset
deriving DecidableEq, Repr

/-- One call. -/
def apply_op (journal : journal_t) : hot_op → journal_t
  | hot_op.record blocknr kmalloc_ok => (jbd2_record_block_access journal blocknr kmalloc_ok).2
  | hot_op.print => (jbd2_print_hot_blocks journal).1
  | hot_op.reset => jbd2_reset_all_block_counts journal

/-- A sequence of calls, first to last. -/
def run_ops (journal : journal_t) (ops : List hot_op) : journal_t :=
  ops.foldl apply_op journal

/-- A sequence of record calls whose allocations all succeed: the final state
and the return values, first to last. -/
def record_all (journal : journal_t) : List Nat → journal_t × List Int
  | [] => (journal, [])
  | blocknr :: rest =>
    let r := jbd2_record_block_access journal blocknr true
    let s := record_all r.2 rest
    (s.1, r.1 :: s.2)

/-- The counter stored for a block number, read through the tracker's own
lookup; `none` when there is no tracker or no entry. -/
def stored_count (journal : journal_t) (blocknr : Nat) : Option Nat :=
  match journal.j_hot_track with
  | none => none
  | some hot_track => (find_block_count hot_track blocknr).map (fun p => p.bc.count)

/-- The block numbers tracked by a journal, in walk order. -/
def tracked_blocks (journal : journal_t) : List Nat :=
  match journal.j_hot_track with
  | none => []
  | some hot_track => rb_keys hot_track.root

/-- The entries held by a journal's tracker, in walk order. -/
def tracked_entries (journal : journal_t) : List block_count :=
  match journal.j_hot_track with
  | none => []
  | some hot_track => rb_inorder hot_track.root

/-- The entries among the printed lines. -/
def printed_entries : List printk_line → List block_count
  | [] => []
  | printk_line.header _ :: rest => printed_entries rest
  | printk_line.block blocknr count :: rest => ⟨blocknr, count⟩ :: printed_entries rest

/-- A journal whose tracker was just created by a successful
`jbd2_init_hot_blocks`. -/
def fresh_journal (window threshold : Nat) (devname : String) : journal_t :=
  (jbd2_init_hot_blocks window threshold ⟨devname, none⟩ true).2

/-! ## Abstraction to key-ordered lists -/

/-- Entries the walk visits before it reaches the subtree below `up`. -/
def rb_before : List rb_frame → List block_count
  | [] => []
  | f :: up =>
    match f.side with
    | rb_side.left => rb_before up
    | rb_side.right => rb_before up ++ (rb_inorder f.other ++ [f.bc])

/-- Entries the walk visits after it has left the subtree below `up`. -/
def rb_after : List rb_frame → List block_count
  | [] => []
  | f :: up =>
    match f.side with
    | rb_side.left => f.bc :: rb_inorder f.other ++ rb_after up
    | rb_side.right => rb_after up

/-- Strictly ascending block numbers. -/
def keys_ascending (es : List block_count) : Prop :=
  es.Pairwise (fun a b => a.blocknr < b.blocknr)

/-- Recording an access on a key-ordered list of entries: bump the entry of
`b` (wrapping at `COUNT_MOD`), or add `(b, 1)` at its place in the order. -/
def list_record (b : Nat) : List block_count → List block_count
  | [] => [⟨b, 1⟩]
  | e :: es =>
    if b < e.blocknr then ⟨b, 1⟩ :: e :: es
    else if e.blocknr < b then e :: list_record b es
    else ⟨b, (e.count + 1) % COUNT_MOD⟩ :: es

/-- The counter of `b` in a list of entries, if `b` has an entry. -/
def list_count (b : Nat) (es : List block_count) : Option Nat :=
  (es.find? (fun e => e.blocknr == b)).map block_count.count



/-- The root of the tree is black (an empty tree counts as black). -/
def rb_root_black : rb_node → Prop
  | rb_node.NULL => True
  | rb_node.node c _ _ _ => c = rb_color.RB_BLACK

/-- The index of a journal's tracker, if any, has a black root. -/
def journal_root_black (journal : journal_t) : Prop :=
  match journal.j_hot_track with
  | none => True
  | some hot_track => rb_root_black hot_track.root

/-- Links, colours and keys of a tree with the counters left out: what
"tree shape" refers to. -/
inductive rb_shape where
  | NULL
  | node (color : rb_color) (rb_left : rb_shape) (blocknr : Nat) (rb_right : rb_shape)
deriving DecidableEq, Repr

/-- The shape of a tree. -/
def rb_shape_of : rb_node → rb_shape
  | rb_node.NULL => rb_shape.NULL
  | rb_node.node c l bc r => rb_shape.node c (rb_shape_of l) bc.blocknr (rb_shape_of r)

/-! ## Heap-level model of the teardown walk (hotness.c:146-150)

The walk of `jbd2_cleanup_hot_blocks` frees the node it stands on and then asks
`rb_next` for the successor of that very node, so what it does depends on which
objects are still allocated. Here nodes live at addresses, `kfree` marks an
address as freed, and every load checks that mark. Address 0 is `NULL`. -/

/-- A `struct block_count` in memory: the parent pointer and colour packed in
`__rb_parent_color`, the two child pointers, and the payload. -/
structure heap_node where
  rb_parent : Nat
  color : rb_color
  rb_right : Nat
  rb_left : Nat
  blocknr : Nat
  count : Nat
deriving DecidableEq, Repr

/-- The memory the walk works on: the objects by address, the addresses handed
to `kfree` so far (latest first), and `hot_track->root.rb_node`. -/
structure heap where
  cells : List (Nat × heap_node)
  freed : List Nat
  root : Nat
deriving DecidableEq, Repr

/-- How a run over the heap can go wrong. -/
inductive mem_fault where
  | use_after_free (addr : Nat)
  | wild_pointer (addr : Nat)
  | out_of_fuel
deriving DecidableEq, Repr

/-- A load through a node pointer: a fault when the object was freed or the
address holds no object. -/
def heap_load (h : heap) (addr : Nat) : Except mem_fault heap_node :=
  if addr ∈ h.freed then Except.error (mem_fault.use_after_free addr)
  else
    match h.cells.lookup addr with
    | some c => Except.ok c
    | none => Except.error (mem_fault.wild_pointer addr)

/-- The effect of `kfree(bc)`: the object is marked freed. -/
def kfree (h : heap) (addr : Nat) : heap :=
  ⟨h.cells, addr :: h.freed, h.root⟩

/-- The loop `while (n->rb_left) n = n->rb_left;` shared by `rb_first` and
`rb_next`. -/
def heap_leftmost (h : heap) : Nat → Nat → Except mem_fault Nat
  | 0, _ => Except.error mem_fault.out_of_fuel
  | fuel + 1, n =>
    match heap_load h n with
    | Except.error e => Except.error e
    | Except.ok c => if c.rb_left = 0 then Except.ok n else heap_leftmost h fuel c.rb_left

/-- Modelled from the spec: `rb_first` (`lib/rbtree.c`, not among the sources),
the first node of the in-order walk: `NULL` on an empty tree, else the leftmost
node. -/
def heap_rb_first (h : heap) (fuel : Nat) : Except mem_fault Nat :=
  if h.root = 0 then Except.ok 0 else heap_leftmost h fuel h.root

/-- The loop `while ((parent = rb_parent(node)) && node == parent->rb_right)
node = parent;` of `rb_next`, returning `parent`. -/
def heap_climb (h : heap) : Nat → Nat → Except mem_fault Nat
  | 0, _ => Except.error mem_fault.out_of_fuel
  | fuel + 1, node =>
    match heap_load h node with
    | Except.error e => Except.error e
    | Except.ok c =>
      if c.rb_parent = 0 then Except.ok 0
      else
        match heap_load h c.rb_parent with
        | Except.error e => Except.error e
        | Except.ok pc =>
          if node = pc.rb_right then heap_climb h fuel c.rb_parent else Except.ok c.rb_parent

/-- Modelled from the spec: `rb_next` (`lib/rbtree.c`, not among the sources),
the in-order successor. It is handed nothing but the node pointer, so it starts
by loading the node's own parent and child pointers: `NULL` for a node marked
as unlinked (`RB_EMPTY_NODE`: its parent word is its own address), the leftmost
node of the right subtree when there is one, else the first ancestor reached
from a left link. -/
def heap_rb_next (h : heap) (fuel : Nat) (node : Nat) : Except mem_fault Nat :=
  match heap_load h node with
  | Except.error e => Except.error e
  | Except.ok c =>
    if c.rb_parent = node ∧ c.color = rb_color.RB_RED then Except.ok 0
    else if c.rb_right ≠ 0 then heap_leftmost h fuel c.rb_right
    else heap_climb h fuel node

/-- The loop at hotness.c:146-150 from the node in `node` on:
`rb_erase(&bc->node, &hot_track->root); kfree(bc);` and then the loop increment
`node = rb_next(node)`. `rb_erase` (`lib/rbtree.c`) is not among the sources and
is a parameter. -/
def cleanup_walk_loop (rb_erase : heap → Nat → heap) : Nat → heap → Nat → Except mem_fault heap
  | 0, _, _ => Except.error mem_fault.out_of_fuel
  | fuel + 1, h, node =>
    if node = 0 then Except.ok h
    else
      let h1 := kfree (rb_erase h node) node
      match heap_rb_next h1 fuel node with
      | Except.error e => Except.error e
      | Except.ok next => cleanup_walk_loop rb_erase fuel h1 next

/-- The whole walk: `node = rb_first(&hot_track->root)`, then the loop. -/
def cleanup_walk (rb_erase : heap → Nat → heap) (fuel : Nat) (h : heap) : Except mem_fault heap :=
  match heap_rb_first h fuel with
  | Except.error e => Except.error e
  | Except.ok first => cleanup_walk_loop rb_erase fuel h first

/-- The heap of a tracker holding the single entry `(blocknr, count)`, at
address 1: what one successful record call on a new tracker leaves. -/
def one_entry_heap (blocknr count : Nat) : heap :=
  ⟨[(1, ⟨0, rb_color.RB_BLACK, 0, 0, blocknr, count⟩)], [], 1⟩

/-- Unlinking of a node that is the root and has no children, the only node of
`one_entry_heap`: `rb_erase` clears the root pointer and writes nothing into
the node itself. -/
def rb_erase_only_node (h : heap) (_node : Nat) : heap :=
  ⟨h.cells, h.freed, 0⟩

/-! ## The index laid out in memory, and the teardown

`jbd2_cleanup_hot_blocks` works on the nodes through their addresses. The
addresses are a choice of the model: the root lies at address 1 and the
children of the node at address `a` at `2 * a` and `2 * a + 1`. -/

/-- Number of left links between the root and the first node of the walk. -/
def rb_leftdepth : rb_node → Nat
  | rb_node.NULL => 0
  | rb_node.node _ l _ _ => if l = rb_node.NULL then 0 else rb_leftdepth l + 1

/-- The objects of the subtree `t` whose root lies at `addr` below the node at
`parent`, the root first. -/
def heap_cells : rb_node → Nat → Nat → List (Nat × heap_node)
  | rb_node.NULL, _, _ => []
  | rb_node.node c l bc r, addr, parent =>
    (addr, ⟨parent, c, (if r = rb_node.NULL then 0 else 2 * addr + 1),
      (if l = rb_node.NULL then 0 else 2 * addr), bc.blocknr, bc.count⟩) ::
      (heap_cells l (2 * addr) addr ++ heap_cells r (2 * addr + 1) addr)

/-- The index of a tracker in memory: nothing freed yet, the root pointer
`NULL` for the empty tree. -/
def heap_of_tree (t : rb_node) : heap :=
  ⟨heap_cells t 1 0, [], if t = rb_node.NULL then 0 else 1⟩

/-- Teardown (hotness.c:137-154). Without a tracker nothing happens (line 143).
With one, the walk of lines 146-150 runs over the index as it lies in memory,
and only when the walk has come back are the tracker freed and the journal's
reference cleared (lines 152-153); a fault of the walk is the outcome of the
call. `rb_erase` (`lib/rbtree.c`) is not among the sources and is a parameter;
`fuel` bounds the loops of `rb_first` and `rb_next` and the walk itself. -/
def jbd2_cleanup_hot_blocks (rb_erase : heap → Nat → heap) (fuel : Nat) (journal : journal_t) :
    Except mem_fault journal_t :=
  match journal.j_hot_track with
  | none => Except.ok journal
  | some hot_track =>
    match cleanup_walk rb_erase fuel (heap_of_tree hot_track.root) with
    | Except.error e => Except.error e
    | Except.ok _ => Except.ok ⟨journal.j_devname, none⟩

/-! ## Structural mutations and the lock

The operations once more, each returning next to its result the structural
mutations it makes, every one with the value the tracker's `lock` has at the
moment the mutation is made. -/

/-- A structural mutation of the index: an entry linked in (by block number) or
an entry unlinked (by the address of its node), with the state of the tracker's
lock when it happens. -/
inductive mutation where
  | insert (blocknr : Nat) (lock_held : Bool)
  | erase (addr : Nat) (lock_held : Bool)
deriving DecidableEq, Repr

/-- The lock state recorded with a mutation. -/
def mutation.lock_held : mutation → Bool
  | mutation.insert _ held => held
  | mutation.erase _ held => held

/-- `insert_block_count` with its mutation: when the descent ends at an empty
link the entry is linked into the tracker it was handed, under that tracker's
lock state. -/
def insert_block_count_logged (hot_track : hot_blocks_track) (new_bc : block_count) :
    (Int × hot_blocks_track) × List mutation :=
  match insert_block_count_loop new_bc hot_track.root [] with
  | Except.error e => ((e, hot_track), [])
  | Except.ok link =>
    ((0, ⟨rb_insert_color (rb_link_node new_bc) link, hot_track.lock,
      hot_track.window_size, hot_track.hot_threshold⟩),
      [mutation.insert new_bc.blocknr hot_track.lock])

/-- `jbd2_record_block_access` with its mutations: the insert is made on the
tracker as `spin_lock` left it. -/
def jbd2_record_block_access_logged (journal : journal_t) (blocknr : Nat) (kmalloc_ok : Bool) :
    (Int × journal_t) × List mutation :=
  match journal.j_hot_track with
  | none => ((-EINVAL, journal), [])
  | some hot_track =>
    let hot_track := spin_lock hot_track
    match find_block_count hot_track blocknr with
    | some bc =>
      ((0, ⟨journal.j_devname,
        some (spin_unlock (set_root hot_track (bc.store_count ((bc.bc.count + 1) % COUNT_MOD))))⟩),
        [])
    | none =>
      if !kmalloc_ok then
        ((-ENOMEM, ⟨journal.j_devname, some (spin_unlock hot_track)⟩), [])
      else
        let r := insert_block_count_logged hot_track ⟨blocknr, 1⟩
        ((r.1.1, ⟨journal.j_devname, some (spin_unlock r.1.2)⟩), r.2)

/-- The loop of the teardown walk with its mutations: every `rb_erase` is made
under the lock state `lock_held` the caller passes in. -/
def cleanup_walk_loop_logged (rb_erase : heap → Nat → heap) (lock_held : Bool) :
    Nat → heap → Nat → Except mem_fault heap × List mutation
  | 0, _, _ => (Except.error mem_fault.out_of_fuel, [])
  | fuel + 1, h, node =>
    if node = 0 then (Except.ok h, [])
    else
      let h1 := kfree (rb_erase h node) node
      match heap_rb_next h1 fuel node with
      | Except.error e => (Except.error e, [mutation.erase node lock_held])
      | Except.ok next =>
        let r := cleanup_walk_loop_logged rb_erase lock_held fuel h1 next
        (r.1, mutation.erase node lock_held :: r.2)

/-- `jbd2_cleanup_hot_blocks` with its mutations: the function calls neither
`spin_lock` nor `spin_unlock`, so the walk runs under the lock state the
tracker has on entry. -/
def jbd2_cleanup_hot_blocks_logged (rb_erase : heap → Nat → heap) (fuel : Nat)
    (journal : journal_t) : Except mem_fault journal_t × List mutation :=
  match journal.j_hot_track with
  | none => (Except.ok journal, [])
  | some hot_track =>
    match heap_rb_first (heap_of_tree hot_track.root) fuel with
    | Except.error e => (Except.error e, [])
    | Except.ok first =>
      let r := cleanup_walk_loop_logged rb_erase hot_track.lock fuel
        (heap_of_tree hot_track.root) first
      match r.1 with
      | Except.error e => (Except.error e, r.2)
      | Except.ok _ => (Except.ok ⟨journal.j_devname, none⟩, r.2)

/-- Number of nodes of a shape. -/
def rb_shape_size : rb_shape → Nat
  | rb_shape.NULL => 0
  | rb_shape.node _ l _ r => rb_shape_size l + 1 + rb_shape_size r

/-- Links, colours and keys of a journal's index, if it has a tracker. -/
def tracker_shape (journal : journal_t) : Option rb_shape :=
  journal.j_hot_track.map (fun h => rb_shape_of h.root)

/-! ## Lock events

What each operation does to the spinlock, as a sequence of events in program
order. -/

/-- An event of the locking discipline: the lock taken or released, an entry
linked into the index (`rb_link_node` and `rb_insert_color`), an entry unlinked
(`rb_erase`). -/
inductive hot_event where
  | lock
  | unlock
  | insert (blocknr : Nat)
  | erase (blocknr : Nat)
deriving DecidableEq, Repr

/-- Events of `insert_block_count`: the new entry is linked unless the descent
ends at an equal key. -/
def insert_block_count_events (hot_track : hot_blocks_track) (new_bc : block_count) :
    List hot_event :=
  match insert_block_count_loop new_bc hot_track.root [] with
  | Except.error _ => []
  | Except.ok _ => [hot_event.insert new_bc.blocknr]

/-- The part of `jbd2_record_block_access` after the lookup (hotness.c:70-89),
for any outcome `bc` of `find_block_count`: the return value, the tracker, and
the events up to and including the `spin_unlock` at `out:`. -/
def record_after_find (hot_track : hot_blocks_track) (blocknr : Nat) (kmalloc_ok : Bool)
    (bc : Option rb_ptr) : (Int × hot_blocks_track) × List hot_event :=
  match bc with
  | some bc =>
    ((0, spin_unlock (set_root hot_track (bc.store_count ((bc.bc.count + 1) % COUNT_MOD)))),
      [hot_event.unlock])
  | none =>
    if !kmalloc_ok then
      ((-ENOMEM, spin_unlock hot_track), [hot_event.unlock])
    else
      let r := insert_block_count hot_track ⟨blocknr, 1⟩
      ((r.1, spin_unlock r.2),
        insert_block_count_events hot_track ⟨blocknr, 1⟩ ++ [hot_event.unlock])

/-- Events of `jbd2_record_block_access`: none on the early return, else the
`spin_lock` followed by those of the locked section. -/
def jbd2_record_block_access_events (journal : journal_t) (blocknr : Nat) (kmalloc_ok : Bool) :
    List hot_event :=
  match journal.j_hot_track with
  | none => []
  | some hot_track =>
    hot_event.lock ::
      (record_after_find (spin_lock hot_track) blocknr kmalloc_ok
        (find_block_count (spin_lock hot_track) blocknr)).2

/-- Events of `jbd2_print_hot_blocks`: the loop only reads. -/
def jbd2_print_hot_blocks_events (journal : journal_t) : List hot_event :=
  match journal.j_hot_track with
  | none => []
  | some _ => [hot_event.lock, hot_event.unlock]

/-- Events of `jbd2_reset_all_block_counts`: the loop stores counts and changes
no link. -/
def jbd2_reset_all_block_counts_events (journal : journal_t) : List hot_event :=
  match journal.j_hot_track with
  | none => []
  | some _ => [hot_event.lock, hot_event.unlock]

/-- Run a sequence of events against the lock, from the state `held`: the state
reached, or `none` when the lock is taken while held (the caller would spin) or
released while free. -/
def lock_run : Bool → List hot_event → Option Bool
  | held, [] => some held
  | held, hot_event.lock :: es => if held then none else lock_run true es
  | held, hot_event.unlock :: es => if held then lock_run false es else none
  | held, hot_event.insert _ :: es => lock_run held es
  | held, hot_event.erase _ :: es => lock_run held es

/-- The lock state of a journal's tracker; free when there is no tracker. -/
def journal_lock_held (journal : journal_t) : Bool :=
  match journal.j_hot_track with
  | none => false
  | some hot_track => hot_track.lock

/-- What `jbd2_print_hot_blocks` must leave alone: the index with every entry,
`window_size` and `hot_threshold`. -/
def tracker_contents (journal : journal_t) : Option (rb_node × Nat × Nat) :=
  journal.j_hot_track.map (fun h => (h.root, h.window_size, h.hot_threshold))

/-! ## Lemmas -/

theorem rb_inorder_plug (f : rb_frame) (t : rb_node) :
    rb_inorder (f.plug t) =
      rb_before [f] ++ rb_inorder t ++ rb_after [f] := by
  cases f with
  | mk side c bc other =>
    cases side <;> simp [rb_frame.plug, rb_before, rb_after, rb_inorder]

theorem rb_inorder_zip (t : rb_node) (up : List rb_frame) :
    rb_inorder (rb_zip t up) = rb_before up ++ rb_inorder t ++ rb_after up := by
  induction up generalizing t with
  | nil => simp [rb_zip, rb_before, rb_after]
  | cons f up ih =>
    cases f with
    | mk side c bc other =>
      cases side <;> simp [rb_zip, ih, rb_frame.plug, rb_before, rb_after, rb_inorder]

theorem rb_inorder_set_black (t : rb_node) : rb_inorder (rb_set_black t) = rb_inorder t := by
  cases t <;> rfl

theorem rb_inorder_insert_color (n : rb_node) (up : List rb_frame) :
    rb_inorder (rb_insert_color n up) = rb_inorder (rb_zip n up) := by
  induction n, up using rb_insert_color.induct <;> 
    simp_all [rb_insert_color, rb_inorder_zip, rb_inorder_set_black, rb_zip, rb_frame.plug,
      rb_before, rb_after, rb_inorder] <;>
    split <;> simp [rb_inorder]
  

theorem find_loop_some_spec (b : Nat) (t : rb_node) (up : List rb_frame) (p : rb_ptr)
    (h : find_block_count_loop b t up = some p) :
    rb_zip p.here p.up = rb_zip t up ∧ p.bc.blocknr = b := by
  induction t generalizing up with
  | NULL => simp [find_block_count_loop] at h
  | node c l bc r ihl ihr =>
    unfold find_block_count_loop at h
    split at h
    · exact ihl _ h
    · split at h
      · exact ihr _ h
      · cases h
        refine ⟨rfl, ?_⟩
        simp only
        omega

theorem insert_loop_eq_find (b c : Nat) (t : rb_node) (up : List rb_frame) :
    (∃ p, find_block_count_loop b t up = some p ∧
        insert_block_count_loop ⟨b, c⟩ t up = Except.error (-EEXIST)) ∨
    (find_block_count_loop b t up = none ∧
        ∃ link, insert_block_count_loop ⟨b, c⟩ t up = Except.ok link) := by
  induction t generalizing up with
  | NULL => right; simp [find_block_count_loop, insert_block_count_loop]
  | node k l bc r ihl ihr =>
    unfold find_block_count_loop insert_block_count_loop
    by_cases h1 : b < bc.blocknr
    · simp only [h1, if_true]; exact ihl _
    · by_cases h2 : b > bc.blocknr
      · simp only [h1, h2, if_true, if_false]; exact ihr _
      · left; simp [h1, h2]

theorem insert_loop_ok_spec (nb : block_count) (t : rb_node) (up link : List rb_frame)
    (h : insert_block_count_loop nb t up = Except.ok link)
    (hs : keys_ascending (rb_before up ++ rb_inorder t ++ rb_after up))
    (hb : ∀ e ∈ rb_before up, e.blocknr < nb.blocknr)
    (ha : ∀ e ∈ rb_after up, nb.blocknr < e.blocknr) :
    rb_before link ++ rb_after link = rb_before up ++ rb_inorder t ++ rb_after up ∧
    (∀ e ∈ rb_before link, e.blocknr < nb.blocknr) ∧
    (∀ e ∈ rb_after link, nb.blocknr < e.blocknr) := by
  induction t generalizing up with
  | NULL =>
    simp only [insert_block_count_loop, Except.ok.injEq] at h
    subst h
    simp [rb_inorder, hb, ha]
    exact ⟨hb, ha⟩
  | node c l bc r ihl ihr =>
    unfold insert_block_count_loop at h
    have hs2 := hs
    simp only [keys_ascending, rb_inorder, List.pairwise_append, List.pairwise_cons,
      List.mem_append, List.mem_cons] at hs2
    split at h
    · rename_i hlt
      have e : rb_before (⟨rb_side.left, c, bc, r⟩ :: up) ++ rb_inorder l ++
          rb_after (⟨rb_side.left, c, bc, r⟩ :: up) =
          rb_before up ++ rb_inorder (rb_node.node c l bc r) ++ rb_after up := by
        simp [rb_before, rb_after, rb_inorder]
      have := ihl _ h (by rw [e]; exact hs) (by simpa [rb_before] using hb) (by
        intro e he
        simp only [rb_after, List.mem_append, List.mem_cons, List.cons_append] at he
        rcases he with rfl | he | he
        · exact hlt
        · have := hs2.1.2.1.2.1.1 e he; omega
        · exact ha e he)
      rw [e] at this
      exact this
    · split at h
      · rename_i hnlt hgt
        have e : rb_before (⟨rb_side.right, c, bc, l⟩ :: up) ++ rb_inorder r ++
            rb_after (⟨rb_side.right, c, bc, l⟩ :: up) =
            rb_before up ++ rb_inorder (rb_node.node c l bc r) ++ rb_after up := by
          simp [rb_before, rb_after, rb_inorder]
        have := ihr _ h (by rw [e]; exact hs) (by
          intro e he
          simp only [rb_before, List.mem_append, List.mem_singleton] at he
          rcases he with he | he | rfl
          · exact hb e he
          · have := hs2.1.2.1.2.2 e he bc (Or.inl rfl); omega
          · exact hgt) (by simpa [rb_after] using ha)
        rw [e] at this
        exact this
      · simp at h


/-! ### Lists of entries in key order -/

theorem list_record_append_new (b : Nat) (xs ys : List block_count)
    (hx : ∀ e ∈ xs, e.blocknr < b) (hy : ∀ e ∈ ys, b < e.blocknr) :
    list_record b (xs ++ ys) = xs ++ ⟨b, 1⟩ :: ys := by
  induction xs with
  | nil =>
    cases ys with
    | nil => rfl
    | cons y ys =>
      have := hy y (List.mem_cons_self _ _)
      simp [list_record, this]
  | cons x xs ih =>
    have hlt := hx x (List.mem_cons_self _ _)
    have hn : ¬ b < x.blocknr := by omega
    simp only [List.cons_append, list_record, hn, if_false, hlt, if_true]
    exact congrArg _ (ih (fun e he => hx e (List.mem_cons_of_mem _ he)))

theorem list_record_append_found (b : Nat) (xs ys : List block_count) (e : block_count)
    (hx : ∀ x ∈ xs, x.blocknr < b) (he : e.blocknr = b) :
    list_record b (xs ++ e :: ys) = xs ++ ⟨b, (e.count + 1) % COUNT_MOD⟩ :: ys := by
  induction xs with
  | nil => simp [list_record, he]
  | cons x xs ih =>
    have hlt := hx x (List.mem_cons_self _ _)
    have hn : ¬ b < x.blocknr := by omega
    simp only [List.cons_append, list_record, hn, if_false, hlt, if_true]
    exact congrArg _ (ih (fun e he => hx e (List.mem_cons_of_mem _ he)))

theorem list_count_nil (b : Nat) : list_count b [] = none := rfl

theorem list_count_cons (b : Nat) (x : block_count) (xs : List block_count) :
    list_count b (x :: xs) = if x.blocknr = b then some x.count else list_count b xs := by
  by_cases h : x.blocknr = b <;> simp [list_count, List.find?_cons, h]

theorem list_count_none_of_lt (b : Nat) (xs : List block_count)
    (hx : ∀ e ∈ xs, b < e.blocknr) : list_count b xs = none := by
  induction xs with
  | nil => rfl
  | cons x xs ih =>
    have := hx x (List.mem_cons_self _ _)
    rw [list_count_cons, if_neg (by omega)]
    exact ih (fun e he => hx e (List.mem_cons_of_mem _ he))

theorem list_count_append_none (b : Nat) (xs ys : List block_count)
    (hx : ∀ e ∈ xs, e.blocknr < b) (hy : ∀ e ∈ ys, b < e.blocknr) :
    list_count b (xs ++ ys) = none := by
  unfold list_count
  rw [Option.map_eq_none', List.find?_eq_none]
  intro e he
  rcases List.mem_append.1 he with h | h
  · have := hx e h; simp; omega
  · have := hy e h; simp; omega

theorem list_count_append_found (b : Nat) (xs ys : List block_count) (e : block_count)
    (hx : ∀ x ∈ xs, x.blocknr < b) (he : e.blocknr = b) :
    list_count b (xs ++ e :: ys) = some e.count := by
  induction xs with
  | nil => simp [list_count, he]
  | cons x xs ih =>
    have hlt := hx x (List.mem_cons_self _ _)
    have hn : ¬ x.blocknr = b := by omega
    have := ih (fun e he => hx e (List.mem_cons_of_mem _ he))
    simpa [list_count, List.find?_cons, hn] using this

theorem list_record_mem (b : Nat) (es : List block_count) (e : block_count)
    (h : e ∈ list_record b es) : e.blocknr = b ∨ e ∈ es := by
  induction es with
  | nil => simp [list_record] at h; left; rw [h]
  | cons x xs ih =>
    unfold list_record at h
    split at h
    · rcases List.mem_cons.1 h with rfl | h
      · left; rfl
      · right; exact h
    · split at h
      · rcases List.mem_cons.1 h with rfl | h
        · right; exact List.mem_cons_self _ _
        · rcases ih h with h | h
          · left; exact h
          · right; exact List.mem_cons_of_mem _ h
      · rcases List.mem_cons.1 h with rfl | h
        · left; rfl
        · right; exact List.mem_cons_of_mem _ h

theorem list_record_ascending (b : Nat) (es : List block_count) (h : keys_ascending es) :
    keys_ascending (list_record b es) := by
  induction es with
  | nil => simp [list_record, keys_ascending]
  | cons x xs ih =>
    unfold keys_ascending at h ih ⊢
    rw [List.pairwise_cons] at h
    unfold list_record
    split
    · rename_i hlt
      refine List.pairwise_cons.2 ⟨?_, List.pairwise_cons.2 h⟩
      intro e he
      rcases List.mem_cons.1 he with rfl | he
      · exact hlt
      · have := h.1 e he; simp only; omega
    · split
      · rename_i hlt
        refine List.pairwise_cons.2 ⟨?_, ih h.2⟩
        intro e he
        rcases list_record_mem b xs e he with h1 | h1
        · omega
        · exact h.1 e h1
      · rename_i h1 h2
        refine List.pairwise_cons.2 ⟨?_, h.2⟩
        intro e he
        have := h.1 e he
        simp only; omega

theorem list_count_record (b b2 : Nat) (es : List block_count) (h : keys_ascending es) :
    list_count b2 (list_record b es) =
      if b2 = b then some (((list_count b es).getD 0 + 1) % COUNT_MOD) else list_count b2 es := by
  induction es with
  | nil =>
    by_cases hb : b2 = b
    · subst hb; simp [list_record, list_count_cons, list_count_nil, COUNT_MOD]
    · have : ¬ b = b2 := fun h => hb h.symm
      simp [list_record, list_count_cons, list_count_nil, hb, this]
  | cons x xs ih =>
    unfold keys_ascending at h ih
    rw [List.pairwise_cons] at h
    unfold list_record
    split
    · rename_i hlt
      by_cases hb : b2 = b
      · subst hb
        have hx : ¬ x.blocknr = b2 := by omega
        have : list_count b2 xs = none :=
          list_count_none_of_lt b2 xs (fun e he => by have := h.1 e he; omega)
        simp [list_count_cons, hx, this, COUNT_MOD]
      · have : ¬ b = b2 := fun h => hb h.symm
        simp [list_count_cons, hb, this]
    · split
      · rename_i hnlt hlt
        have hx : ¬ x.blocknr = b := by omega
        have := ih h.2
        by_cases hb : b2 = b
        · subst hb
          simp only [if_true] at this
          simp only [list_count_cons, hx, if_false, if_true, this]
        · simp only [hb, if_false] at this
          simp only [list_count_cons, hb, if_false, this]
      · rename_i h1 h2
        have hx : x.blocknr = b := by omega
        by_cases hb : b2 = b
        · subst hb
          simp [list_count_cons, hx]
        · have : ¬ b = b2 := fun h => hb h.symm
          have hx2 : ¬ x.blocknr = b2 := by omega
          simp [list_count_cons, hb, this, hx2]


/-! ### The tree operations refine the list operations -/

theorem find_some_split (b : Nat) (t : rb_node) (p : rb_ptr)
    (hs : keys_ascending (rb_inorder t))
    (h : find_block_count_loop b t [] = some p) (v : Nat) :
    rb_inorder (p.store_count v) =
        (rb_before p.up ++ rb_inorder p.rb_left) ++
          ⟨b, v⟩ :: (rb_inorder p.rb_right ++ rb_after p.up) ∧
    rb_inorder t =
        (rb_before p.up ++ rb_inorder p.rb_left) ++
          p.bc :: (rb_inorder p.rb_right ++ rb_after p.up) ∧
    p.bc.blocknr = b ∧
    (∀ x ∈ rb_before p.up ++ rb_inorder p.rb_left, x.blocknr < b) := by
  obtain ⟨hz, hk⟩ := find_loop_some_spec b t [] p h
  have ht : rb_inorder t =
      (rb_before p.up ++ rb_inorder p.rb_left) ++
        p.bc :: (rb_inorder p.rb_right ++ rb_after p.up) := by
    have := congrArg rb_inorder hz
    rw [rb_inorder_zip] at this
    simp only [rb_zip] at this
    rw [← this]
    simp [rb_ptr.here, rb_inorder]
  refine ⟨?_, ht, hk, ?_⟩
  · simp [rb_ptr.store_count, rb_inorder_zip, rb_inorder, hk]
  · intro x hx
    rw [ht] at hs
    unfold keys_ascending at hs
    rw [List.pairwise_append] at hs
    have := hs.2.2 x hx p.bc (List.mem_cons_self _ _)
    omega

theorem find_some_refines (b : Nat) (t : rb_node) (p : rb_ptr)
    (hs : keys_ascending (rb_inorder t))
    (h : find_block_count_loop b t [] = some p) :
    rb_inorder (p.store_count ((p.bc.count + 1) % COUNT_MOD)) = list_record b (rb_inorder t) ∧
    list_count b (rb_inorder t) = some p.bc.count := by
  obtain ⟨h1, h2, h3, h4⟩ := find_some_split b t p hs h ((p.bc.count + 1) % COUNT_MOD)
  constructor
  · rw [h1, h2, list_record_append_found b _ _ p.bc h4 h3]
  · rw [h2, list_count_append_found b _ _ p.bc h4 h3]

theorem find_none_refines (b c : Nat) (t : rb_node)
    (hs : keys_ascending (rb_inorder t))
    (h : find_block_count_loop b t [] = none) :
    ∃ link, insert_block_count_loop ⟨b, c⟩ t [] = Except.ok link ∧
      rb_inorder (rb_insert_color (rb_link_node ⟨b, c⟩) link) =
        rb_before link ++ ⟨b, c⟩ :: rb_after link ∧
      rb_inorder t = rb_before link ++ rb_after link ∧
      (∀ e ∈ rb_before link, e.blocknr < b) ∧ (∀ e ∈ rb_after link, b < e.blocknr) := by
  rcases insert_loop_eq_find b c t [] with ⟨p, hp, _⟩ | ⟨_, link, hl⟩
  · rw [h] at hp; cases hp
  · refine ⟨link, hl, ?_⟩
    have := insert_loop_ok_spec ⟨b, c⟩ t [] link hl (by simpa [rb_before, rb_after] using hs)
      (by simp [rb_before]) (by simp [rb_after])
    simp only [rb_before, rb_after, List.nil_append, List.append_nil] at this
    refine ⟨?_, this.1.symm, this.2.1, this.2.2⟩
    rw [rb_inorder_insert_color, rb_inorder_zip]
    simp [rb_link_node, rb_inorder]

theorem find_eq_list_count (b : Nat) (t : rb_node) (hs : keys_ascending (rb_inorder t)) :
    (find_block_count_loop b t []).map (fun p => p.bc.count) = list_count b (rb_inorder t) := by
  cases h : find_block_count_loop b t [] with
  | some p => rw [(find_some_refines b t p hs h).2]; rfl
  | none =>
    obtain ⟨link, _, _, h2, h3, h4⟩ := find_none_refines b 1 t hs h
    rw [h2, list_count_append_none b _ _ h3 h4]; rfl

theorem record_refines (dev : String) (ht : hot_blocks_track) (b : Nat)
    (hs : keys_ascending (rb_inorder ht.root)) :
    ∃ root, jbd2_record_block_access ⟨dev, some ht⟩ b true =
        (0, ⟨dev, some ⟨root, false, ht.window_size, ht.hot_threshold⟩⟩) ∧
      rb_inorder root = list_record b (rb_inorder ht.root) := by
  cases h : find_block_count_loop b ht.root [] with
  | some p =>
    refine ⟨p.store_count ((p.bc.count + 1) % COUNT_MOD), ?_, (find_some_refines b _ p hs h).1⟩
    simp [jbd2_record_block_access, find_block_count, spin_lock, spin_unlock, set_root, h]
  | none =>
    obtain ⟨link, h1, h2, h3, h4, h5⟩ := find_none_refines b 1 ht.root hs h
    refine ⟨rb_insert_color (rb_link_node ⟨b, 1⟩) link, ?_, ?_⟩
    · simp [jbd2_record_block_access, find_block_count, spin_lock, spin_unlock, h,
        insert_block_count, h1]
    · rw [h2, h3, list_record_append_new b _ _ h4 h5]


/-! ### Search-tree order -/

theorem rb_bst_iff_ascending (t : rb_node) : rb_bst t ↔ keys_ascending (rb_inorder t) := by
  induction t with
  | NULL => simp [rb_bst, rb_inorder, keys_ascending]
  | node c l bc r ihl ihr =>
    simp only [rb_bst, rb_inorder, keys_ascending, List.pairwise_append, List.pairwise_cons,
      List.mem_cons, rb_keys, List.mem_map] at *
    rw [ihl, ihr]
    constructor
    · rintro ⟨h1, h2, h3, h4⟩
      refine ⟨h1, ⟨fun e he => h4 _ ⟨e, he, rfl⟩, h2⟩, ?_⟩
      intro a ha b hb
      rcases hb with rfl | hb
      · exact h3 _ ⟨a, ha, rfl⟩
      · have := h3 _ ⟨a, ha, rfl⟩
        have := h4 _ ⟨b, hb, rfl⟩
        omega
    · rintro ⟨h1, ⟨h2, h3⟩, h4⟩
      refine ⟨h1, h3, ?_, ?_⟩
      · rintro k ⟨e, he, rfl⟩
        exact h4 e he bc (Or.inl rfl)
      · rintro k ⟨e, he, rfl⟩
        exact h2 e he

theorem keys_ascending_nodup (es : List block_count) (h : keys_ascending es) :
    (es.map block_count.blocknr).Nodup := by
  unfold keys_ascending at h
  unfold List.Nodup
  rw [List.pairwise_map]
  exact h.imp (fun hlt => by omega)

/-! ### The reset and report loops -/

theorem rb_inorder_reset_loop (t : rb_node) :
    rb_inorder (reset_loop t) = (rb_inorder t).map (fun e => ⟨e.blocknr, 0⟩) := by
  induction t with
  | NULL => rfl
  | node c l bc r ihl ihr => simp [reset_loop, rb_inorder, ihl, ihr]

theorem rb_keys_reset_loop (t : rb_node) : rb_keys (reset_loop t) = rb_keys t := by
  simp [rb_keys, rb_inorder_reset_loop, Function.comp_def]

theorem rb_shape_reset_loop (t : rb_node) : rb_shape_of (reset_loop t) = rb_shape_of t := by
  induction t with
  | NULL => rfl
  | node c l bc r ihl ihr => simp [reset_loop, rb_shape_of, ihl, ihr]

theorem keys_ascending_map_zero (es : List block_count) (h : keys_ascending es) :
    keys_ascending (es.map (fun e => (⟨e.blocknr, 0⟩ : block_count))) := by
  unfold keys_ascending at *
  rw [List.pairwise_map]
  exact h

theorem list_count_map_zero (b : Nat) (es : List block_count) :
    list_count b (es.map (fun e => (⟨e.blocknr, 0⟩ : block_count))) =
      (list_count b es).map (fun _ => 0) := by
  induction es with
  | nil => rfl
  | cons x xs ih =>
    rw [List.map_cons, list_count_cons, list_count_cons]
    by_cases h : x.blocknr = b
    · simp [h]
    · simp only [h, if_false]; exact ih

theorem print_hot_loop_eq (thr : Nat) (es : List block_count) :
    print_hot_loop thr es =
      (es.filter (fun e => decide (thr ≤ e.count))).map
        (fun e => printk_line.block e.blocknr e.count) := by
  induction es with
  | nil => rfl
  | cons x xs ih =>
    unfold print_hot_loop
    by_cases h : x.count ≥ thr
    · have h2 : thr ≤ x.count := h
      simp [h, h2, List.filter_cons, ih]
    · have h2 : ¬ thr ≤ x.count := h
      simp [h, h2, List.filter_cons, ih]

theorem printed_entries_blocks (es : List block_count) :
    printed_entries (es.map (fun e => printk_line.block e.blocknr e.count)) = es := by
  induction es with
  | nil => rfl
  | cons x xs ih => simp [printed_entries, ih]

theorem printed_entries_print (dev : String) (ht : hot_blocks_track) :
    printed_entries (jbd2_print_hot_blocks ⟨dev, some ht⟩).2 =
      (rb_inorder ht.root).filter (fun e => decide (ht.hot_threshold ≤ e.count)) := by
  simp [jbd2_print_hot_blocks, spin_lock, printed_entries, print_hot_loop_eq,
    printed_entries_blocks]

/-! ### Reachable states -/

theorem record_fail_eq (dev : String) (ht : hot_blocks_track) (b : Nat)
    (h : find_block_count_loop b ht.root [] = none) :
    jbd2_record_block_access ⟨dev, some ht⟩ b false =
      (-ENOMEM, ⟨dev, some ⟨ht.root, false, ht.window_size, ht.hot_threshold⟩⟩) := by
  simp [jbd2_record_block_access, find_block_count, spin_lock, spin_unlock, h]

theorem record_found_eq (dev : String) (ht : hot_blocks_track) (b : Nat) (p : rb_ptr)
    (kmalloc_ok : Bool) (h : find_block_count_loop b ht.root [] = some p) :
    jbd2_record_block_access ⟨dev, some ht⟩ b kmalloc_ok =
      (0, ⟨dev, some ⟨p.store_count ((p.bc.count + 1) % COUNT_MOD), false, ht.window_size,
        ht.hot_threshold⟩⟩) := by
  simp [jbd2_record_block_access, find_block_count, spin_lock, spin_unlock, set_root, h]

theorem record_step_ok (dev : String) (root : rb_node) (lock : Bool) (w thr b : Nat)
    (kmalloc_ok : Bool) (hs : keys_ascending (rb_inorder root)) :
    ∃ root2, (jbd2_record_block_access ⟨dev, some ⟨root, lock, w, thr⟩⟩ b kmalloc_ok).2 =
        ⟨dev, some ⟨root2, false, w, thr⟩⟩ ∧ keys_ascending (rb_inorder root2) := by
  cases kmalloc_ok with
  | true =>
    obtain ⟨root2, h1, h2⟩ := record_refines dev ⟨root, lock, w, thr⟩ b hs
    exact ⟨root2, by rw [h1], by rw [h2]; exact list_record_ascending b _ hs⟩
  | false =>
    cases h : find_block_count_loop b root [] with
    | none =>
      refine ⟨root, ?_, hs⟩
      rw [record_fail_eq dev ⟨root, lock, w, thr⟩ b h]
    | some p =>
      obtain ⟨root2, h1, h2⟩ := record_refines dev ⟨root, lock, w, thr⟩ b hs
      refine ⟨root2, ?_, by rw [h2]; exact list_record_ascending b _ hs⟩
      rw [record_found_eq dev ⟨root, lock, w, thr⟩ b p false h]
      rw [record_found_eq dev ⟨root, lock, w, thr⟩ b p true h] at h1
      rw [h1]

theorem apply_op_ok (dev : String) (root : rb_node) (lock : Bool) (w thr : Nat) (op : hot_op)
    (hs : keys_ascending (rb_inorder root)) :
    ∃ root2, apply_op ⟨dev, some ⟨root, lock, w, thr⟩⟩ op = ⟨dev, some ⟨root2, false, w, thr⟩⟩ ∧
      keys_ascending (rb_inorder root2) := by
  cases op with
  | record b kmalloc_ok => exact record_step_ok dev root lock w thr b kmalloc_ok hs
  | print => exact ⟨root, by simp [apply_op, jbd2_print_hot_blocks, spin_lock, spin_unlock], hs⟩
  | reset =>
    refine ⟨reset_loop root, by
      simp [apply_op, jbd2_reset_all_block_counts, spin_lock, spin_unlock, set_root], ?_⟩
    rw [rb_inorder_reset_loop]
    exact keys_ascending_map_zero _ hs

theorem run_ops_ok (dev : String) (w thr : Nat) (ops : List hot_op) (root : rb_node)
    (hs : keys_ascending (rb_inorder root)) :
    ∃ root2, run_ops ⟨dev, some ⟨root, false, w, thr⟩⟩ ops = ⟨dev, some ⟨root2, false, w, thr⟩⟩ ∧
      keys_ascending (rb_inorder root2) := by
  induction ops generalizing root with
  | nil => exact ⟨root, rfl, hs⟩
  | cons op ops ih =>
    obtain ⟨r1, h1, hs1⟩ := apply_op_ok dev root false w thr op hs
    obtain ⟨r2, h2, hs2⟩ := ih r1 hs1
    refine ⟨r2, ?_, hs2⟩
    simp only [run_ops, List.foldl_cons] at h2 ⊢
    rw [h1, h2]

theorem reachable_ok (w thr : Nat) (dev : String) (ops : List hot_op) :
    ∃ root, run_ops (fresh_journal w thr dev) ops = ⟨dev, some ⟨root, false, w, thr⟩⟩ ∧
      keys_ascending (rb_inorder root) := by
  have := run_ops_ok dev w thr ops rb_node.NULL (by simp [rb_inorder, keys_ascending])
  simpa [fresh_journal, jbd2_init_hot_blocks] using this


/-! ### Sequences of record calls -/

theorem record_all_refines (dev : String) (w thr : Nat) (bs : List Nat) (root : rb_node)
    (lock : Bool) (hs : keys_ascending (rb_inorder root)) :
    ∃ root2, record_all ⟨dev, some ⟨root, lock, w, thr⟩⟩ bs =
        (⟨dev, some ⟨root2, if bs = [] then lock else false, w, thr⟩⟩,
          List.replicate bs.length 0) ∧
      rb_inorder root2 = bs.foldl (fun es b => list_record b es) (rb_inorder root) ∧
      keys_ascending (rb_inorder root2) := by
  induction bs generalizing root lock with
  | nil => exact ⟨root, rfl, rfl, hs⟩
  | cons b bs ih =>
    obtain ⟨r1, h1, h2⟩ := record_refines dev ⟨root, lock, w, thr⟩ b hs
    have hs1 : keys_ascending (rb_inorder r1) := by
      rw [h2]; exact list_record_ascending b _ hs
    obtain ⟨r2, h3, h4, h5⟩ := ih r1 false hs1
    refine ⟨r2, ?_, ?_, h5⟩
    · simp only [record_all, h1, h3, List.length_cons, List.replicate_succ]
      simp
    · rw [h4, h2]; rfl

theorem list_count_foldl (b : Nat) (bs : List Nat) (es : List block_count)
    (hs : keys_ascending es) :
    list_count b (bs.foldl (fun es b => list_record b es) es) =
      if bs.count b = 0 then list_count b es
      else some (((list_count b es).getD 0 + bs.count b) % COUNT_MOD) := by
  induction bs generalizing es with
  | nil => simp
  | cons x xs ih =>
    rw [List.foldl_cons, ih _ (list_record_ascending x es hs), list_count_record x b es hs]
    by_cases hx : b = x
    · subst hx
      simp only [List.count_cons_self, if_true]
      by_cases h0 : List.count b xs = 0
      · simp [h0]
      · simp only [h0, if_false, Option.getD_some, Nat.add_one_ne_zero]
        congr 1
        rw [Nat.add_mod, Nat.mod_mod, ← Nat.add_mod]
        congr 1
        omega
    · simp only [hx, if_false, List.count_cons_of_ne hx]

theorem stored_count_eq (dev : String) (ht : hot_blocks_track) (b : Nat)
    (hs : keys_ascending (rb_inorder ht.root)) :
    stored_count ⟨dev, some ht⟩ b = list_count b (rb_inorder ht.root) := by
  simp only [stored_count, find_block_count]
  exact find_eq_list_count b ht.root hs

theorem record_all_counts (dev : String) (w thr : Nat) (bs : List Nat) (root : rb_node)
    (b : Nat) (hs : keys_ascending (rb_inorder root)) :
    (record_all ⟨dev, some ⟨root, false, w, thr⟩⟩ bs).2 = List.replicate bs.length 0 ∧
    stored_count (record_all ⟨dev, some ⟨root, false, w, thr⟩⟩ bs).1 b =
      if bs.count b = 0 then list_count b (rb_inorder root)
      else some (((list_count b (rb_inorder root)).getD 0 + bs.count b) % COUNT_MOD) := by
  obtain ⟨r2, h1, h2, h3⟩ := record_all_refines dev w thr bs root false hs
  rw [h1]
  refine ⟨rfl, ?_⟩
  rw [stored_count_eq dev _ b h3]
  simp only
  rw [h2, list_count_foldl b bs _ hs]

theorem record_all_fresh (w thr : Nat) (dev : String) (bs : List Nat) (b : Nat) :
    (record_all (fresh_journal w thr dev) bs).2 = List.replicate bs.length 0 ∧
    stored_count (record_all (fresh_journal w thr dev) bs).1 b =
      if bs.count b = 0 then none else some (bs.count b % COUNT_MOD) := by
  have := record_all_counts dev w thr bs rb_node.NULL b (by simp [rb_inorder, keys_ascending])
  simpa [fresh_journal, jbd2_init_hot_blocks, rb_inorder, list_count_nil] using this

theorem record_all_after_reset (dev : String) (w thr : Nat) (bs : List Nat) (root : rb_node)
    (b : Nat) (hs : keys_ascending (rb_inorder root)) :
    (stored_count (jbd2_reset_all_block_counts ⟨dev, some ⟨root, false, w, thr⟩⟩) b = none ∨
      stored_count (jbd2_reset_all_block_counts ⟨dev, some ⟨root, false, w, thr⟩⟩) b = some 0) ∧
    (record_all (jbd2_reset_all_block_counts ⟨dev, some ⟨root, false, w, thr⟩⟩) bs).2 =
      List.replicate bs.length 0 ∧
    stored_count (record_all (jbd2_reset_all_block_counts ⟨dev, some ⟨root, false, w, thr⟩⟩) bs).1 b =
      if bs.count b = 0 then
        stored_count (jbd2_reset_all_block_counts ⟨dev, some ⟨root, false, w, thr⟩⟩) b
      else some (bs.count b % COUNT_MOD) := by
  have e : jbd2_reset_all_block_counts ⟨dev, some ⟨root, false, w, thr⟩⟩ =
      ⟨dev, some ⟨reset_loop root, false, w, thr⟩⟩ := by
    simp [jbd2_reset_all_block_counts, spin_lock, spin_unlock, set_root]
  have hs0 : keys_ascending (rb_inorder (reset_loop root)) := by
    rw [rb_inorder_reset_loop]; exact keys_ascending_map_zero _ hs
  have h0 : stored_count ⟨dev, some ⟨reset_loop root, false, w, thr⟩⟩ b =
      list_count b (rb_inorder (reset_loop root)) := stored_count_eq dev _ b hs0
  have hz : list_count b (rb_inorder (reset_loop root)) = none ∨
      list_count b (rb_inorder (reset_loop root)) = some 0 := by
    rw [rb_inorder_reset_loop, list_count_map_zero]
    cases list_count b (rb_inorder root) <;> simp
  obtain ⟨h1, h2⟩ := record_all_counts dev w thr bs (reset_loop root) b hs0
  rw [e, h0]
  refine ⟨hz, h1, ?_⟩
  rw [h2]
  rcases hz with hz | hz <;> simp [hz]


theorem list_record_has_key (b : Nat) (es : List block_count) :
    b ∈ (list_record b es).map block_count.blocknr := by
  induction es with
  | nil => simp [list_record]
  | cons x xs ih =>
    unfold list_record
    split
    · simp
    · split
      · simp only [List.map_cons, List.mem_cons]; right; exact ih
      · simp

theorem record_tracked_keys (dev : String) (ht : hot_blocks_track) (b : Nat) (kmalloc_ok : Bool)
    (hs : keys_ascending (rb_inorder ht.root)) (hb : b ∈ rb_keys ht.root) :
    tracked_blocks (jbd2_record_block_access ⟨dev, some ht⟩ b kmalloc_ok).2 = rb_keys ht.root := by
  cases h : find_block_count_loop b ht.root [] with
  | none =>
    obtain ⟨link, _, _, h2, h3, h4⟩ := find_none_refines b 1 ht.root hs h
    exfalso
    simp only [rb_keys, h2, List.map_append, List.mem_append, List.mem_map] at hb
    rcases hb with ⟨e, he, rfl⟩ | ⟨e, he, rfl⟩
    · have := h3 e he; omega
    · have := h4 e he; omega
  | some p =>
    rw [record_found_eq dev ht b p kmalloc_ok h]
    obtain ⟨h1, h2, h3, _⟩ := find_some_split b ht.root p hs h ((p.bc.count + 1) % COUNT_MOD)
    simp only [tracked_blocks, rb_keys]
    rw [h1, h2]
    simp [h3]

theorem print_lines_eq (dev : String) (ht : hot_blocks_track) :
    (jbd2_print_hot_blocks ⟨dev, some ht⟩).2 =
      printk_line.header dev ::
        ((rb_inorder ht.root).filter (fun e => decide (ht.hot_threshold ≤ e.count))).map
          (fun e => printk_line.block e.blocknr e.count) := by
  simp [jbd2_print_hot_blocks, spin_lock, print_hot_loop_eq]

theorem record_ret (dev : String) (ht : hot_blocks_track) (b : Nat) (kmalloc_ok : Bool) :
    (jbd2_record_block_access ⟨dev, some ht⟩ b kmalloc_ok).1 =
      if find_block_count ht b = none ∧ kmalloc_ok = false then -ENOMEM else 0 := by
  unfold find_block_count
  rcases insert_loop_eq_find b 1 ht.root [] with ⟨p, hp, _⟩ | ⟨hn, link, hl⟩
  · rw [record_found_eq dev ht b p kmalloc_ok hp]
    simp [hp]
  · cases kmalloc_ok with
    | false => rw [record_fail_eq dev ht b hn]; simp [hn]
    | true =>
      simp [jbd2_record_block_access, find_block_count, spin_lock, hn, insert_block_count, hl]

/-! ### The root stays black

`rb_insert_color` reads the grandparent of a red parent without a check. The
lemmas below show that the check is not needed on the trees the tracker builds:
the root is always black, so a red parent is never the root. -/

theorem rb_root_black_zip (t : rb_node) (up : List rb_frame) :
    rb_root_black (rb_zip t up) ↔
      match up.getLast? with
      | none => rb_root_black t
      | some f => f.color = rb_color.RB_BLACK := by
  induction up generalizing t with
  | nil => simp [rb_zip]
  | cons f up ih =>
    rw [rb_zip, ih]
    cases up with
    | nil =>
      cases f with
      | mk side c bc other => cases side <;> simp [rb_frame.plug, rb_root_black]
    | cons g up =>
      rw [List.getLast?_cons_cons]
      cases h : (g :: up).getLast? with
      | none => simp at h
      | some x => simp

theorem rb_root_black_zip_top (l : rb_node) (bc : block_count) (r : rb_node)
    (p g : rb_frame) (up : List rb_frame)
    (hup : ∀ f, (p :: g :: up).getLast? = some f → f.color = rb_color.RB_BLACK) :
    rb_root_black (rb_zip (rb_node.node g.color l bc r) up) := by
  rw [rb_root_black_zip]
  cases h : up.getLast? with
  | none =>
    have hu : up = [] := List.getLast?_eq_none_iff.1 h
    subst hu
    exact hup g rfl
  | some f =>
    apply hup f
    cases up with
    | nil => simp at h
    | cons x xs => simpa [List.getLast?_cons_cons] using h

theorem rb_root_black_insert_color (n : rb_node) (up : List rb_frame)
    (hn : n ≠ rb_node.NULL)
    (hup : ∀ f, up.getLast? = some f → f.color = rb_color.RB_BLACK) :
    rb_root_black (rb_insert_color n up) := by
  induction n, up using rb_insert_color.induct with
  | case1 n =>
    cases n with
    | NULL => exact absurd rfl hn
    | node c l bc r => simp [rb_insert_color, rb_set_black, rb_root_black]
  | case2 n p =>
    have := hup p rfl
    cases p with
    | mk side c bc other =>
      cases side <;> simp_all [rb_insert_color, rb_frame.plug, rb_root_black]
  | case3 n p g up hp =>
    simp only [rb_insert_color, hp]
    rw [rb_root_black_zip]
    cases h : (p :: g :: up).getLast? with
    | none => simp at h
    | some f => exact hup f h
  | case4 n p g up hp ul ubc ur ho hs ih =>
    simp only [rb_insert_color, hp, hs, ho]
    apply ih (by simp)
    intro f hf
    apply hup f
    cases up with
    | nil => simp at hf
    | cons x xs => simpa [List.getLast?_cons_cons] using hf
  | case5 n p g up hp ul ubc ur ho hs ih =>
    simp only [rb_insert_color, hp, hs, ho]
    apply ih (by simp)
    intro f hf
    apply hup f
    cases up with
    | nil => simp at hf
    | cons x xs => simpa [List.getLast?_cons_cons] using hf
  | case7 => exact absurd rfl hn
  | case10 => exact absurd rfl hn
  | _ =>
    simp_all only [rb_insert_color]
    exact rb_root_black_zip_top _ _ _ _ _ _ hup

theorem insert_loop_zip (nb : block_count) (t : rb_node) (up link : List rb_frame)
    (h : insert_block_count_loop nb t up = Except.ok link) :
    rb_zip rb_node.NULL link = rb_zip t up := by
  induction t generalizing up with
  | NULL =>
    simp only [insert_block_count_loop, Except.ok.injEq] at h
    rw [h]
  | node c l bc r ihl ihr =>
    unfold insert_block_count_loop at h
    split at h
    · exact ihl _ h
    · split at h
      · exact ihr _ h
      · simp at h

theorem rb_root_black_reset_loop (t : rb_node) :
    rb_root_black (reset_loop t) ↔ rb_root_black t := by
  cases t <;> simp [reset_loop, rb_root_black]

theorem record_root_black (journal : journal_t) (b : Nat) (kmalloc_ok : Bool)
    (hb : journal_root_black journal) :
    journal_root_black (jbd2_record_block_access journal b kmalloc_ok).2 := by
  cases journal with
  | mk dev t =>
    cases t with
    | none => simpa [jbd2_record_block_access] using hb
    | some ht =>
      have hroot : rb_root_black ht.root := hb
      cases h : find_block_count_loop b ht.root [] with
      | some p =>
        rw [record_found_eq dev ht b p kmalloc_ok h]
        obtain ⟨hz, _⟩ := find_loop_some_spec b ht.root [] p h
        simp only [rb_zip] at hz
        rw [← hz, rb_root_black_zip] at hroot
        simp only [journal_root_black, rb_ptr.store_count]
        rw [rb_root_black_zip]
        cases hl : p.up.getLast? with
        | none => rw [hl] at hroot; exact hroot
        | some f => rw [hl] at hroot; exact hroot
      | none =>
        cases kmalloc_ok with
        | false => rw [record_fail_eq dev ht b h]; exact hroot
        | true =>
          rcases insert_loop_eq_find b 1 ht.root [] with ⟨p, hp, _⟩ | ⟨_, link, hl⟩
          · rw [h] at hp; cases hp
          · have hz := insert_loop_zip ⟨b, 1⟩ ht.root [] link hl
            simp only [rb_zip] at hz
            rw [← hz, rb_root_black_zip] at hroot
            have : (jbd2_record_block_access ⟨dev, some ht⟩ b true).2 =
                ⟨dev, some ⟨rb_insert_color (rb_link_node ⟨b, 1⟩) link, false, ht.window_size,
                  ht.hot_threshold⟩⟩ := by
              simp [jbd2_record_block_access, find_block_count, spin_lock, spin_unlock, h,
                insert_block_count, hl]
            rw [this]
            apply rb_root_black_insert_color _ _ (by simp [rb_link_node])
            intro f hf
            rw [hf] at hroot
            exact hroot

theorem apply_op_root_black (journal : journal_t) (op : hot_op)
    (hb : journal_root_black journal) : journal_root_black (apply_op journal op) := by
  cases op with
  | record b kmalloc_ok => exact record_root_black journal b kmalloc_ok hb
  | print =>
    cases journal with
    | mk dev t =>
      cases t with
      | none => simpa [apply_op, jbd2_print_hot_blocks] using hb
      | some ht =>
        simpa [apply_op, jbd2_print_hot_blocks, journal_root_black, spin_lock, spin_unlock]
          using hb
  | reset =>
    cases journal with
    | mk dev t =>
      cases t with
      | none => simpa [apply_op, jbd2_reset_all_block_counts] using hb
      | some ht =>
        have hroot : rb_root_black ht.root := hb
        simpa [apply_op, jbd2_reset_all_block_counts, journal_root_black, spin_lock,
          spin_unlock, set_root, rb_root_black_reset_loop] using hroot

theorem run_ops_root_black (journal : journal_t) (ops : List hot_op)
    (hb : journal_root_black journal) : journal_root_black (run_ops journal ops) := by
  induction ops generalizing journal with
  | nil => exact hb
  | cons op ops ih => exact ih _ (apply_op_root_black journal op hb)

/-- In every state reachable from a successful `jbd2_init_hot_blocks`, an
insert that links the new node directly under the root finds the root black:
the rebalancing never meets a red parent without a grandparent. -/
theorem red_parent_has_grandparent (w thr : Nat) (dev : String) (ops : List hot_op)
    (ht : hot_blocks_track) (nb : block_count) (p : rb_frame)
    (h : (run_ops (fresh_journal w thr dev) ops).j_hot_track = some ht)
    (hl : insert_block_count_loop nb ht.root [] = Except.ok [p]) :
    p.color = rb_color.RB_BLACK := by
  have hb := run_ops_root_black (fresh_journal w thr dev) ops
    (by simp [fresh_journal, jbd2_init_hot_blocks, journal_root_black, rb_root_black])
  simp only [journal_root_black, h] at hb
  have hz := insert_loop_zip nb ht.root [] [p] hl
  simp only [rb_zip] at hz
  rw [← hz] at hb
  cases p with
  | mk side c bc other => cases side <;> simpa [rb_frame.plug, rb_root_black] using hb

/-! ## The claims -/

/-- C1 (amended): on a tracker that was just created, or just reset in any
reachable state, a sequence of record calls whose allocations succeed returns 0
every time and leaves, for each block `b` of the sequence, the number of calls
made for `b` reduced modulo `2 ^ 32` (the counter is a 32-bit unsigned integer
and `count++` wraps), hence exactly that number while it is below `2 ^ 32`; a
block outside the sequence keeps no entry, or its zeroed entry. In every
reachable state one more successful call on `b` stores 1 when `b` had no entry
and the old count plus one (wrapped) otherwise. -/
theorem record_count_is_calls_mod (w thr : Nat) (dev : String) (ops : List hot_op)
    (bs : List Nat) (b : Nat) :
    (record_all (fresh_journal w thr dev) bs).2 = List.replicate bs.length 0 ∧
    stored_count (record_all (fresh_journal w thr dev) bs).1 b =
      (if b ∈ bs then some (bs.count b % COUNT_MOD) else none) ∧
    (bs.count b < COUNT_MOD →
      stored_count (record_all (fresh_journal w thr dev) bs).1 b =
        (if b ∈ bs then some (bs.count b) else none)) ∧
    (record_all (jbd2_reset_all_block_counts (run_ops (fresh_journal w thr dev) ops)) bs).2 =
      List.replicate bs.length 0 ∧
    (stored_count (jbd2_reset_all_block_counts (run_ops (fresh_journal w thr dev) ops)) b = none ∨
      stored_count (jbd2_reset_all_block_counts (run_ops (fresh_journal w thr dev) ops)) b =
        some 0) ∧
    stored_count
        (record_all (jbd2_reset_all_block_counts (run_ops (fresh_journal w thr dev) ops)) bs).1 b =
      (if b ∈ bs then some (bs.count b % COUNT_MOD)
       else stored_count (jbd2_reset_all_block_counts (run_ops (fresh_journal w thr dev) ops)) b) ∧
    (jbd2_record_block_access (run_ops (fresh_journal w thr dev) ops) b true).1 = 0 ∧
    stored_count (jbd2_record_block_access (run_ops (fresh_journal w thr dev) ops) b true).2 b =
      some (match stored_count (run_ops (fresh_journal w thr dev) ops) b with
        | none => 1
        | some c => (c + 1) % COUNT_MOD) := by
  obtain ⟨root, hr, hs⟩ := reachable_ok w thr dev ops
  obtain ⟨f1, f2⟩ := record_all_fresh w thr dev bs b
  obtain ⟨r1, r2, r3⟩ := record_all_after_reset dev w thr bs root b hs
  have hmem : (List.count b bs = 0) ↔ ¬ b ∈ bs := List.count_eq_zero
  rw [hr]
  refine ⟨f1, ?_, ?_, r2, r1, ?_, ?_⟩
  · rw [f2]; by_cases h : b ∈ bs <;> simp [h, hmem]
  · intro hlt
    rw [f2, Nat.mod_eq_of_lt hlt]; by_cases h : b ∈ bs <;> simp [h, hmem]
  · rw [r3]; by_cases h : b ∈ bs <;> simp [h, hmem]
  · obtain ⟨root2, e1, e2⟩ := record_refines dev ⟨root, false, w, thr⟩ b hs
    rw [e1]
    refine ⟨rfl, ?_⟩
    have hs2 : keys_ascending (rb_inorder root2) := by
      rw [e2]; exact list_record_ascending b _ hs
    rw [stored_count_eq dev _ b hs2, stored_count_eq dev _ b hs]
    simp only
    rw [e2, list_count_record b b _ hs]
    cases list_count b (rb_inorder root) <;> simp [COUNT_MOD]

/-- C1 (witness): two accesses to block 100 and one to block 200 on a new
tracker: all three calls return 0, block 100 has count 2, and a first access to
block 300 afterwards stores count 1. -/
theorem record_count_is_calls_mod_witness :
    (record_all (fresh_journal 1000 10 "sda") [100, 200, 100]).2 = [0, 0, 0] ∧
    stored_count (record_all (fresh_journal 1000 10 "sda") [100, 200, 100]).1 100 = some 2 ∧
    stored_count (jbd2_record_block_access (run_ops (fresh_journal 1000 10 "sda")
      [hot_op.record 100 true, hot_op.record 200 true]) 300 true).2 300 = some 1 :=
  ⟨by decide,
    (record_count_is_calls_mod 1000 10 "sda" [] [100, 200, 100] 100).2.2.1 (by decide),
    by decide⟩

/-- C1 (counterexample): `2 ^ 32` successful record calls for block 7 on a new
tracker all return 0, yet the count stored for block 7 is 0 and not the number
of calls. -/
theorem record_count_wraps :
    (record_all (fresh_journal 1000 10 "sda") (List.replicate 4294967296 7)).2 =
      List.replicate 4294967296 0 ∧
    (List.replicate 4294967296 7).count 7 = 4294967296 ∧
    stored_count (record_all (fresh_journal 1000 10 "sda") (List.replicate 4294967296 7)).1 7 =
      some 0 ∧
    stored_count (record_all (fresh_journal 1000 10 "sda") (List.replicate 4294967296 7)).1 7 ≠
      some ((List.replicate 4294967296 7).count 7) := by
  obtain ⟨f1, f2⟩ := record_all_fresh 1000 10 "sda" (List.replicate 4294967296 7) 7
  rw [List.length_replicate] at f1
  rw [List.count_replicate_self] at f2
  have hz : (4294967296 : Nat) % COUNT_MOD = 0 := by decide
  have hn : ¬ ((4294967296 : Nat) = 0) := by decide
  rw [if_neg hn, hz] at f2
  refine ⟨f1, List.count_replicate_self _ _, f2, ?_⟩
  rw [f2, List.count_replicate_self]
  intro h
  injection h with h
  exact absurd h (by decide)


/-- C2: on an active tracker `jbd2_print_hot_blocks` prints the header line and
then exactly the entries of the index whose count is at least `hot_threshold`,
each once, in walk order, with its current block number and count; so with
threshold 3, two accesses to block 100 and four to block 200 the entries
reported are `[(200, 4)]`. -/
theorem print_emits_hot_entries (dev : String) (ht : hot_blocks_track) :
    (jbd2_print_hot_blocks ⟨dev, some ht⟩).2 =
      printk_line.header dev ::
        ((rb_inorder ht.root).filter (fun e => decide (ht.hot_threshold ≤ e.count))).map
          (fun e => printk_line.block e.blocknr e.count) ∧
    printed_entries (jbd2_print_hot_blocks ⟨dev, some ht⟩).2 =
      (rb_inorder ht.root).filter (fun e => decide (ht.hot_threshold ≤ e.count)) ∧
    (∀ e, e ∈ printed_entries (jbd2_print_hot_blocks ⟨dev, some ht⟩).2 ↔
      e ∈ rb_inorder ht.root ∧ ht.hot_threshold ≤ e.count) ∧
    printed_entries (jbd2_print_hot_blocks
      (record_all (fresh_journal 1000 3 "sda") [100, 100, 200, 200, 200, 200]).1).2 =
      [⟨200, 4⟩] := by
  refine ⟨print_lines_eq dev ht, printed_entries_print dev ht, ?_, by decide⟩
  · intro e
    rw [printed_entries_print dev ht, List.mem_filter]
    simp

/-- C3: in every state reachable from a successful `jbd2_init_hot_blocks` by
record (with any allocation outcome), report and reset calls, the entries
printed by `jbd2_print_hot_blocks` are in strictly ascending block-number
order. -/
theorem print_strictly_ascending (w thr : Nat) (dev : String) (ops : List hot_op) :
    keys_ascending
      (printed_entries (jbd2_print_hot_blocks (run_ops (fresh_journal w thr dev) ops)).2) := by
  obtain ⟨root, hr, hs⟩ := reachable_ok w thr dev ops
  rw [hr, printed_entries_print]
  exact List.Pairwise.filter _ hs

/-- C4: in every state reachable from a successful `jbd2_init_hot_blocks` by
record, report and reset calls, the index is a binary search tree with strictly
ordered keys, so no block number has two entries; a record call keeps it so,
leaves the tracked block numbers as they were when the block is already
tracked, and after a successful call the block has exactly one entry. -/
theorem index_one_entry_per_block (w thr : Nat) (dev : String) (ops : List hot_op)
    (b : Nat) (kmalloc_ok : Bool) :
    ∃ ht, (run_ops (fresh_journal w thr dev) ops).j_hot_track = some ht ∧
      rb_bst ht.root ∧ (rb_keys ht.root).Nodup ∧
      (tracked_blocks
        (jbd2_record_block_access (run_ops (fresh_journal w thr dev) ops) b kmalloc_ok).2).Nodup ∧
      (b ∈ rb_keys ht.root →
        tracked_blocks
          (jbd2_record_block_access (run_ops (fresh_journal w thr dev) ops) b kmalloc_ok).2 =
          rb_keys ht.root) ∧
      (tracked_blocks
        (jbd2_record_block_access (run_ops (fresh_journal w thr dev) ops) b true).2).count b =
        1 := by
  obtain ⟨root, hr, hs⟩ := reachable_ok w thr dev ops
  refine ⟨⟨root, false, w, thr⟩, by rw [hr], (rb_bst_iff_ascending root).2 hs,
    keys_ascending_nodup _ hs, ?_, ?_, ?_⟩
  · obtain ⟨r2, h1, h2⟩ := record_step_ok dev root false w thr b kmalloc_ok hs
    rw [hr, h1]
    exact keys_ascending_nodup _ h2
  · intro hb
    rw [hr]
    exact record_tracked_keys dev ⟨root, false, w, thr⟩ b kmalloc_ok hs hb
  · obtain ⟨r2, h1, h2⟩ := record_refines dev ⟨root, false, w, thr⟩ b hs
    rw [hr, h1]
    simp only [tracked_blocks, rb_keys]
    rw [h2]
    exact List.count_eq_one_of_mem
      (keys_ascending_nodup _ (list_record_ascending b _ hs)) (list_record_has_key b _)

/-- C4 (witness): after recording blocks 5, 3, 5, 8 the index is a search tree,
and recording the tracked block 5 again leaves the tracked block numbers
`[3, 5, 8]`. -/
theorem index_one_entry_per_block_witness :
    tracked_blocks (run_ops (fresh_journal 1000 10 "sda")
      [hot_op.record 5 true, hot_op.record 3 true, hot_op.record 5 true,
        hot_op.record 8 true]) = [3, 5, 8] ∧
    ∃ ht, (run_ops (fresh_journal 1000 10 "sda")
        [hot_op.record 5 true, hot_op.record 3 true, hot_op.record 5 true,
          hot_op.record 8 true]).j_hot_track = some ht ∧
      rb_bst ht.root ∧ (rb_keys ht.root).Nodup ∧
      (tracked_blocks (jbd2_record_block_access (run_ops (fresh_journal 1000 10 "sda")
        [hot_op.record 5 true, hot_op.record 3 true, hot_op.record 5 true,
          hot_op.record 8 true]) 5 false).2).Nodup ∧
      (5 ∈ rb_keys ht.root →
        tracked_blocks (jbd2_record_block_access (run_ops (fresh_journal 1000 10 "sda")
          [hot_op.record 5 true, hot_op.record 3 true, hot_op.record 5 true,
            hot_op.record 8 true]) 5 false).2 = rb_keys ht.root) ∧
      (tracked_blocks (jbd2_record_block_access (run_ops (fresh_journal 1000 10 "sda")
        [hot_op.record 5 true, hot_op.record 3 true, hot_op.record 5 true,
          hot_op.record 8 true]) 5 true).2).count 5 = 1 :=
  ⟨by decide, index_one_entry_per_block 1000 10 "sda"
    [hot_op.record 5 true, hot_op.record 3 true, hot_op.record 5 true, hot_op.record 8 true]
    5 false⟩

/-- C5: on an active tracker `jbd2_reset_all_block_counts` sets every entry's
count to 0 and removes nothing: the tracked block numbers, the links and
colours of the tree, `window_size` and `hot_threshold` are as before (and the
lock is released). -/
theorem reset_zeroes_counts (dev : String) (ht : hot_blocks_track) :
    ∃ root, jbd2_reset_all_block_counts ⟨dev, some ht⟩ =
        ⟨dev, some ⟨root, false, ht.window_size, ht.hot_threshold⟩⟩ ∧
      rb_inorder root = (rb_inorder ht.root).map (fun e => ⟨e.blocknr, 0⟩) ∧
      (∀ e ∈ rb_inorder root, e.count = 0) ∧
      rb_keys root = rb_keys ht.root ∧
      rb_shape_of root = rb_shape_of ht.root := by
  refine ⟨reset_loop ht.root, ?_, rb_inorder_reset_loop _, ?_, rb_keys_reset_loop _,
    rb_shape_reset_loop _⟩
  · simp [jbd2_reset_all_block_counts, spin_lock, spin_unlock, set_root]
  · intro e he
    rw [rb_inorder_reset_loop, List.mem_map] at he
    obtain ⟨x, _, rfl⟩ := he
    rfl

/-- C6: on an active tracker with `hot_threshold > 0`, a reset followed at once
by a report prints the header and no entry, and the reset leaves every tracked
block number in place, each with count 0. -/
theorem reset_then_print_empty (dev : String) (ht : hot_blocks_track)
    (hthr : 0 < ht.hot_threshold) :
    (jbd2_print_hot_blocks (jbd2_reset_all_block_counts ⟨dev, some ht⟩)).2 =
      [printk_line.header dev] ∧
    printed_entries (jbd2_print_hot_blocks (jbd2_reset_all_block_counts ⟨dev, some ht⟩)).2 = [] ∧
    tracked_blocks (jbd2_reset_all_block_counts ⟨dev, some ht⟩) =
      tracked_blocks ⟨dev, some ht⟩ ∧
    tracked_entries (jbd2_reset_all_block_counts ⟨dev, some ht⟩) =
      (tracked_entries ⟨dev, some ht⟩).map (fun e => ⟨e.blocknr, 0⟩) := by
  have e : jbd2_reset_all_block_counts ⟨dev, some ht⟩ =
      ⟨dev, some ⟨reset_loop ht.root, false, ht.window_size, ht.hot_threshold⟩⟩ := by
    simp [jbd2_reset_all_block_counts, spin_lock, spin_unlock, set_root]
  have hf : (rb_inorder (reset_loop ht.root)).filter
      (fun e => decide (ht.hot_threshold ≤ e.count)) = [] := by
    rw [List.filter_eq_nil_iff]
    intro x hx
    rw [rb_inorder_reset_loop, List.mem_map] at hx
    obtain ⟨y, _, rfl⟩ := hx
    simp only [decide_eq_true_eq]
    omega
  rw [e]
  refine ⟨?_, ?_, ?_, ?_⟩
  · rw [print_lines_eq dev _]
    simp only
    rw [hf]; rfl
  · rw [printed_entries_print]; exact hf
  · simp [tracked_blocks, rb_keys_reset_loop]
  · simp [tracked_entries, rb_inorder_reset_loop]

/-- C6 (witness): a tracker with threshold 3 holding blocks 100 (count 2) and
200 (count 4) reports nothing but the header after a reset. -/
theorem reset_then_print_empty_witness :
    (0 < (hot_blocks_track.mk
        (rb_node.node rb_color.RB_BLACK rb_node.NULL ⟨100, 2⟩
          (rb_node.node rb_color.RB_RED rb_node.NULL ⟨200, 4⟩ rb_node.NULL))
        false 1000 3).hot_threshold) ∧
    printed_entries (jbd2_print_hot_blocks ⟨"sda", some (hot_blocks_track.mk
        (rb_node.node rb_color.RB_BLACK rb_node.NULL ⟨100, 2⟩
          (rb_node.node rb_color.RB_RED rb_node.NULL ⟨200, 4⟩ rb_node.NULL))
        false 1000 3)⟩).2 = [⟨200, 4⟩] ∧
    printed_entries (jbd2_print_hot_blocks (jbd2_reset_all_block_counts
      ⟨"sda", some (hot_blocks_track.mk
        (rb_node.node rb_color.RB_BLACK rb_node.NULL ⟨100, 2⟩
          (rb_node.node rb_color.RB_RED rb_node.NULL ⟨200, 4⟩ rb_node.NULL))
        false 1000 3)⟩)).2 = [] :=
  ⟨by decide, by decide,
    (reset_then_print_empty "sda" (hot_blocks_track.mk
        (rb_node.node rb_color.RB_BLACK rb_node.NULL ⟨100, 2⟩
          (rb_node.node rb_color.RB_RED rb_node.NULL ⟨200, 4⟩ rb_node.NULL))
        false 1000 3) (by decide)).2.1⟩


/-- C7: on a journal without a tracker `jbd2_record_block_access` returns
`-EINVAL` (that is -22) for every block number and allocation outcome, and the
journal, still without a tracker and without entries, is exactly as before. -/
theorem record_without_tracker (journal : journal_t) (blocknr : Nat) (kmalloc_ok : Bool)
    (h : journal.j_hot_track = none) :
    jbd2_record_block_access journal blocknr kmalloc_ok = (-EINVAL, journal) ∧
    (jbd2_record_block_access journal blocknr kmalloc_ok).1 = -22 ∧
    tracked_entries (jbd2_record_block_access journal blocknr kmalloc_ok).2 = [] := by
  simp [jbd2_record_block_access, h, tracked_entries, EINVAL]

/-- C7 (witness): block 42 recorded on a journal whose tracker was never
created. -/
theorem record_without_tracker_witness :
    (journal_t.mk "sda" none).j_hot_track = none ∧
    jbd2_record_block_access (journal_t.mk "sda" none) 42 true = (-22, journal_t.mk "sda" none) :=
  ⟨rfl, (record_without_tracker (journal_t.mk "sda" none) 42 true rfl).1⟩

/-- C8: on an active tracker, when the block is not yet tracked and the entry
allocation fails, `jbd2_record_block_access` returns `-ENOMEM` and the index is
the same tree as before (window and threshold too, the lock released). On an
active tracker the call returns 0 or `-ENOMEM`, and `-ENOMEM` exactly when the
block is untracked and the allocation fails; in particular never when the block
is already tracked. -/
theorem record_alloc_failure (dev : String) (ht : hot_blocks_track) (blocknr : Nat)
    (kmalloc_ok : Bool) :
    (find_block_count ht blocknr = none →
      jbd2_record_block_access ⟨dev, some ht⟩ blocknr false =
        (-ENOMEM, ⟨dev, some ⟨ht.root, false, ht.window_size, ht.hot_threshold⟩⟩)) ∧
    ((jbd2_record_block_access ⟨dev, some ht⟩ blocknr kmalloc_ok).1 = 0 ∨
      (jbd2_record_block_access ⟨dev, some ht⟩ blocknr kmalloc_ok).1 = -ENOMEM) ∧
    ((jbd2_record_block_access ⟨dev, some ht⟩ blocknr kmalloc_ok).1 = -ENOMEM ↔
      (find_block_count ht blocknr = none ∧ kmalloc_ok = false)) ∧
    ((find_block_count ht blocknr).isSome = true →
      (jbd2_record_block_access ⟨dev, some ht⟩ blocknr kmalloc_ok).1 = 0) := by
  have hr := record_ret dev ht blocknr kmalloc_ok
  refine ⟨fun h => record_fail_eq dev ht blocknr h, ?_, ?_, ?_⟩
  · rw [hr]; split <;> simp
  · rw [hr]; split <;> simp_all [ENOMEM]
  · intro hsome
    rw [hr, if_neg]
    rintro ⟨hn, _⟩
    rw [hn] at hsome
    simp at hsome

/-- C8 (witness): block 9 is not tracked by a tracker holding only block 5; with
a failing allocation the call returns -12 and the tracker is unchanged. -/
theorem record_alloc_failure_witness :
    find_block_count
      ⟨rb_node.node rb_color.RB_BLACK rb_node.NULL ⟨5, 2⟩ rb_node.NULL, false, 1000, 10⟩ 9 =
        none ∧
    jbd2_record_block_access ⟨"sda", some
      ⟨rb_node.node rb_color.RB_BLACK rb_node.NULL ⟨5, 2⟩ rb_node.NULL, false, 1000, 10⟩⟩ 9 false =
      (-12, ⟨"sda", some
        ⟨rb_node.node rb_color.RB_BLACK rb_node.NULL ⟨5, 2⟩ rb_node.NULL, false, 1000, 10⟩⟩) :=
  ⟨by decide, (record_alloc_failure "sda"
    ⟨rb_node.node rb_color.RB_BLACK rb_node.NULL ⟨5, 2⟩ rb_node.NULL, false, 1000, 10⟩ 9 false).1
      (by decide)⟩

/-- C10 (the code against the claim): whenever the index is not empty, the walk
of `jbd2_cleanup_hot_blocks` reads the first entry after it has erased and
freed it: the loop increment `rb_next(node)` loads the node that `kfree(bc)`
has just released, whatever `rb_erase` did to the heap. -/
theorem cleanup_walk_reads_freed_entry (rb_erase : heap → Nat → heap) (fuel : Nat) (h : heap)
    (first : Nat) (hfirst : heap_rb_first h (fuel + 1) = Except.ok first) (hne : first ≠ 0) :
    cleanup_walk rb_erase (fuel + 1) h = Except.error (mem_fault.use_after_free first) := by
  simp [cleanup_walk, hfirst, cleanup_walk_loop, hne, heap_rb_next, heap_load, kfree]

/-- C10 (witness): a tracker holding the single entry (7, 1): the walk starts at
the entry, erases and frees it, and then reads it. -/
theorem cleanup_walk_reads_freed_entry_witness :
    heap_rb_first (one_entry_heap 7 1) 2 = Except.ok 1 ∧ (1 : Nat) ≠ 0 ∧
    cleanup_walk rb_erase_only_node 2 (one_entry_heap 7 1) =
      Except.error (mem_fault.use_after_free 1) :=
  ⟨rfl, by decide,
    cleanup_walk_reads_freed_entry rb_erase_only_node 1 (one_entry_heap 7 1) 1
      rfl (by decide)⟩

/-! ### Lemmas for the remaining claims -/

theorem reset_loop_idem (t : rb_node) : reset_loop (reset_loop t) = reset_loop t := by
  induction t with
  | NULL => rfl
  | node c l bc r ihl ihr => simp [reset_loop, ihl, ihr]

theorem find_bc_up_irrel (b : Nat) (t : rb_node) (up up2 : List rb_frame) :
    (find_block_count_loop b t up).map rb_ptr.bc =
      (find_block_count_loop b t up2).map rb_ptr.bc := by
  induction t generalizing up up2 with
  | NULL => rfl
  | node c l bc r ihl ihr =>
    unfold find_block_count_loop
    by_cases g1 : b < bc.blocknr
    · simp only [g1, if_true]; exact ihl _ _
    · by_cases g2 : b > bc.blocknr
      · simp only [g1, g2, if_true, if_false]; exact ihr _ _
      · simp only [g1, g2, if_false]; rfl

theorem find_after_store (b v : Nat) (t : rb_node) (up : List rb_frame) (p : rb_ptr)
    (h : find_block_count_loop b t up = some p) :
    ∃ t2, rb_zip (rb_node.node p.color p.rb_left ⟨p.bc.blocknr, v⟩ p.rb_right) p.up =
        rb_zip t2 up ∧
      (∀ up2, (find_block_count_loop b t2 up2).map rb_ptr.bc = some ⟨b, v⟩) ∧
      (∀ b2 up2, b2 ≠ b →
        (find_block_count_loop b2 t2 up2).map rb_ptr.bc =
          (find_block_count_loop b2 t up2).map rb_ptr.bc) ∧
      rb_shape_of t2 = rb_shape_of t := by
  induction t generalizing up with
  | NULL => simp [find_block_count_loop] at h
  | node c l bc r ihl ihr =>
    unfold find_block_count_loop at h
    by_cases h1 : b < bc.blocknr
    · simp only [h1, if_true] at h
      obtain ⟨l2, e1, e2, e3, e4⟩ := ihl _ h
      refine ⟨rb_node.node c l2 bc r, ?_, ?_, ?_, ?_⟩
      · rw [e1]; rfl
      · intro up2
        unfold find_block_count_loop
        simp only [h1, if_true]
        exact e2 _
      · intro b2 up2 hne
        unfold find_block_count_loop
        by_cases g1 : b2 < bc.blocknr
        · simp only [g1, if_true]
          rw [e3 b2 _ hne]
        · by_cases g2 : b2 > bc.blocknr
          · simp only [g1, g2, if_true, if_false]
            exact find_bc_up_irrel b2 r _ _
          · simp only [g1, g2, if_false]; rfl
      · simp [rb_shape_of, e4]
    · by_cases h2 : b > bc.blocknr
      · simp only [h1, h2, if_true, if_false] at h
        obtain ⟨r2, e1, e2, e3, e4⟩ := ihr _ h
        refine ⟨rb_node.node c l bc r2, ?_, ?_, ?_, ?_⟩
        · rw [e1]; rfl
        · intro up2
          unfold find_block_count_loop
          simp only [h1, h2, if_true, if_false]
          exact e2 _
        · intro b2 up2 hne
          unfold find_block_count_loop
          by_cases g1 : b2 < bc.blocknr
          · simp only [g1, if_true]
            exact find_bc_up_irrel b2 l _ _
          · by_cases g2 : b2 > bc.blocknr
            · simp only [g1, g2, if_true, if_false]
              rw [e3 b2 _ hne]
            · simp only [g1, g2, if_false]; rfl
        · simp [rb_shape_of, e4]
      · simp only [h1, h2, if_false, Option.some.injEq] at h
        subst h
        have hb : bc.blocknr = b := by omega
        refine ⟨rb_node.node c l ⟨bc.blocknr, v⟩ r, rfl, ?_, ?_, ?_⟩
        · intro up2
          unfold find_block_count_loop
          simp [h1, h2, hb]
        · intro b2 up2 hne
          unfold find_block_count_loop
          by_cases g1 : b2 < bc.blocknr
          · simp only [g1, if_true]
            exact find_bc_up_irrel b2 l _ _
          · by_cases g2 : b2 > bc.blocknr
            · simp only [g1, g2, if_true, if_false]
              exact find_bc_up_irrel b2 r _ _
            · exfalso; omega
        · simp [rb_shape_of]

theorem stored_count_after_hit (dev : String) (ht : hot_blocks_track) (b : Nat) (p : rb_ptr)
    (kmalloc_ok : Bool) (h : find_block_count ht b = some p) :
    jbd2_record_block_access ⟨dev, some ht⟩ b kmalloc_ok =
      (0, ⟨dev, some ⟨p.store_count ((p.bc.count + 1) % COUNT_MOD), false, ht.window_size,
        ht.hot_threshold⟩⟩) ∧
    stored_count ⟨dev, some ht⟩ b = some p.bc.count ∧
    stored_count (jbd2_record_block_access ⟨dev, some ht⟩ b kmalloc_ok).2 b =
      some ((p.bc.count + 1) % COUNT_MOD) ∧
    (∀ b2, b2 ≠ b →
      stored_count (jbd2_record_block_access ⟨dev, some ht⟩ b kmalloc_ok).2 b2 =
        stored_count ⟨dev, some ht⟩ b2) := by
  unfold find_block_count at h
  have e := record_found_eq dev ht b p kmalloc_ok h
  obtain ⟨t2, e1, e2, e3, _⟩ := find_after_store b ((p.bc.count + 1) % COUNT_MOD) ht.root [] p h
  simp only [rb_zip] at e1
  have hs : p.store_count ((p.bc.count + 1) % COUNT_MOD) = t2 := e1
  refine ⟨e, ?_, ?_, ?_⟩
  · simp [stored_count, find_block_count, h]
  · rw [e]
    simp only [stored_count, find_block_count, hs]
    have := e2 []
    cases hf : find_block_count_loop b t2 [] with
    | none => rw [hf] at this; simp at this
    | some q =>
      rw [hf] at this
      simp only [Option.map_some', Option.some.injEq] at this
      simp [this]
  · intro b2 hne
    rw [e]
    simp only [stored_count, find_block_count, hs]
    have := e3 b2 [] hne
    cases hf : find_block_count_loop b2 t2 [] with
    | none =>
      rw [hf] at this
      cases hg : find_block_count_loop b2 ht.root [] with
      | none => rfl
      | some q => rw [hg] at this; simp at this
    | some q =>
      rw [hf] at this
      cases hg : find_block_count_loop b2 ht.root [] with
      | none => rw [hg] at this; simp at this
      | some q2 =>
        rw [hg] at this
        simp only [Option.map_some', Option.some.injEq] at this
        simp [this]

/-- C11: `jbd2_print_hot_blocks` leaves the index, every entry with its block
number and count, `window_size` and `hot_threshold` as they were, for a journal
with or without a tracker (with the lock free on entry the journal is exactly
the same); a second report prints the same lines as the first. -/
theorem print_does_not_mutate (journal : journal_t) :
    tracker_contents (jbd2_print_hot_blocks journal).1 = tracker_contents journal ∧
    tracked_entries (jbd2_print_hot_blocks journal).1 = tracked_entries journal ∧
    (jbd2_print_hot_blocks journal).1.j_devname = journal.j_devname ∧
    (journal_lock_held journal = false → (jbd2_print_hot_blocks journal).1 = journal) ∧
    (jbd2_print_hot_blocks (jbd2_print_hot_blocks journal).1).2 =
      (jbd2_print_hot_blocks journal).2 := by
  cases journal with
  | mk dev t =>
    cases t with
    | none => simp [jbd2_print_hot_blocks, tracker_contents, tracked_entries]
    | some ht =>
      cases ht with
      | mk root lock w thr =>
        simp [jbd2_print_hot_blocks, tracker_contents, tracked_entries, spin_lock, spin_unlock,
          journal_lock_held]

/-- C11 (witness): a tracker with threshold 3 holding blocks 100 (count 2) and
200 (count 4), lock free: the report returns the same journal, and a second
report prints the same two lines. -/
theorem print_does_not_mutate_witness :
    journal_lock_held ⟨"sda", some ⟨rb_node.node rb_color.RB_BLACK rb_node.NULL ⟨100, 2⟩
      (rb_node.node rb_color.RB_RED rb_node.NULL ⟨200, 4⟩ rb_node.NULL), false, 1000, 3⟩⟩ =
      false ∧
    (jbd2_print_hot_blocks ⟨"sda", some ⟨rb_node.node rb_color.RB_BLACK rb_node.NULL ⟨100, 2⟩
      (rb_node.node rb_color.RB_RED rb_node.NULL ⟨200, 4⟩ rb_node.NULL), false, 1000, 3⟩⟩).1 =
      ⟨"sda", some ⟨rb_node.node rb_color.RB_BLACK rb_node.NULL ⟨100, 2⟩
        (rb_node.node rb_color.RB_RED rb_node.NULL ⟨200, 4⟩ rb_node.NULL), false, 1000, 3⟩⟩ ∧
    (jbd2_print_hot_blocks ⟨"sda", some ⟨rb_node.node rb_color.RB_BLACK rb_node.NULL ⟨100, 2⟩
      (rb_node.node rb_color.RB_RED rb_node.NULL ⟨200, 4⟩ rb_node.NULL), false, 1000, 3⟩⟩).2 =
      [printk_line.header "sda", printk_line.block 200 4] :=
  ⟨by decide,
    (print_does_not_mutate ⟨"sda", some ⟨rb_node.node rb_color.RB_BLACK rb_node.NULL ⟨100, 2⟩
      (rb_node.node rb_color.RB_RED rb_node.NULL ⟨200, 4⟩ rb_node.NULL), false, 1000, 3⟩⟩).2.2.2.1
      (by decide),
    by decide⟩

/-- C12: two calls of `jbd2_reset_all_block_counts` in a row leave the journal
in exactly the state one call leaves it in, with or without a tracker. -/
theorem reset_twice_is_reset (journal : journal_t) :
    jbd2_reset_all_block_counts (jbd2_reset_all_block_counts journal) =
      jbd2_reset_all_block_counts journal := by
  cases journal with
  | mk dev t =>
    cases t with
    | none => simp [jbd2_reset_all_block_counts]
    | some ht =>
      simp [jbd2_reset_all_block_counts, spin_lock, spin_unlock, set_root, reset_loop_idem]

/-- C13 (amended): on an active tracker, a record call on a block that is
already tracked with count `c` returns 0 and leaves the count `(c + 1) mod 2^32`
(every other block's lookup is unchanged): exactly `c + 1`, strictly greater
than before, for every `c` below `2^32 - 1`, and 0 when `c` is `2^32 - 1`. -/
theorem record_increments_mod (dev : String) (ht : hot_blocks_track) (b : Nat) (p : rb_ptr)
    (kmalloc_ok : Bool) (h : find_block_count ht b = some p) :
    (jbd2_record_block_access ⟨dev, some ht⟩ b kmalloc_ok).1 = 0 ∧
    stored_count ⟨dev, some ht⟩ b = some p.bc.count ∧
    stored_count (jbd2_record_block_access ⟨dev, some ht⟩ b kmalloc_ok).2 b =
      some ((p.bc.count + 1) % COUNT_MOD) ∧
    (p.bc.count + 1 < COUNT_MOD →
      stored_count (jbd2_record_block_access ⟨dev, some ht⟩ b kmalloc_ok).2 b =
        some (p.bc.count + 1)) ∧
    (p.bc.count + 1 = COUNT_MOD →
      stored_count (jbd2_record_block_access ⟨dev, some ht⟩ b kmalloc_ok).2 b = some 0) := by
  obtain ⟨e1, e2, e3, _⟩ := stored_count_after_hit dev ht b p kmalloc_ok h
  refine ⟨by rw [e1], e2, e3, ?_, ?_⟩
  · intro hlt
    rw [e3, Nat.mod_eq_of_lt hlt]
  · intro heq
    rw [e3, heq, Nat.mod_self]

/-- C13 (witness): block 7 tracked with count 41 becomes count 42. -/
theorem record_increments_mod_witness :
    find_block_count ⟨rb_node.node rb_color.RB_BLACK rb_node.NULL ⟨7, 41⟩ rb_node.NULL,
      false, 1000, 10⟩ 7 =
      some ⟨rb_color.RB_BLACK, rb_node.NULL, ⟨7, 41⟩, rb_node.NULL, []⟩ ∧
    stored_count (jbd2_record_block_access ⟨"sda", some
      ⟨rb_node.node rb_color.RB_BLACK rb_node.NULL ⟨7, 41⟩ rb_node.NULL, false, 1000, 10⟩⟩
      7 true).2 7 = some 42 :=
  ⟨by decide,
    (record_increments_mod "sda"
      ⟨rb_node.node rb_color.RB_BLACK rb_node.NULL ⟨7, 41⟩ rb_node.NULL, false, 1000, 10⟩ 7
      ⟨rb_color.RB_BLACK, rb_node.NULL, ⟨7, 41⟩, rb_node.NULL, []⟩ true (by decide)).2.2.2.1
      (by decide)⟩

/-- C13 (counterexample): block 7 is tracked with count `2^32 - 1`, a value the
32-bit counter holds; the record call returns 0 and the count becomes 0, which
is neither greater than before nor the old count plus one. -/
theorem record_wraps_at_max :
    (4294967295 : Nat) < COUNT_MOD ∧
    stored_count ⟨"sda", some
      ⟨rb_node.node rb_color.RB_BLACK rb_node.NULL ⟨7, 4294967295⟩ rb_node.NULL,
        false, 1000, 10⟩⟩ 7 = some 4294967295 ∧
    (jbd2_record_block_access ⟨"sda", some
      ⟨rb_node.node rb_color.RB_BLACK rb_node.NULL ⟨7, 4294967295⟩ rb_node.NULL,
        false, 1000, 10⟩⟩ 7 true).1 = 0 ∧
    stored_count (jbd2_record_block_access ⟨"sda", some
      ⟨rb_node.node rb_color.RB_BLACK rb_node.NULL ⟨7, 4294967295⟩ rb_node.NULL,
        false, 1000, 10⟩⟩ 7 true).2 7 = some 0 ∧
    ¬ (∀ c2, stored_count (jbd2_record_block_access ⟨"sda", some
      ⟨rb_node.node rb_color.RB_BLACK rb_node.NULL ⟨7, 4294967295⟩ rb_node.NULL,
        false, 1000, 10⟩⟩ 7 true).2 7 = some c2 → 4294967295 < c2) := by
  refine ⟨by decide, by decide, by decide, by decide, ?_⟩
  intro hall
  have := hall 0 (by decide)
  omega

/-! ### Lemmas on the insert and lookup descents -/

theorem keys_ascending_insert_mid (xs ys : List block_count) (e : block_count)
    (hs : keys_ascending (xs ++ ys))
    (hx : ∀ x ∈ xs, x.blocknr < e.blocknr) (hy : ∀ y ∈ ys, e.blocknr < y.blocknr) :
    keys_ascending (xs ++ e :: ys) := by
  unfold keys_ascending at *
  rw [List.pairwise_append] at hs ⊢
  refine ⟨hs.1, List.pairwise_cons.2 ⟨hy, hs.2.1⟩, ?_⟩
  intro a ha b hb
  rcases List.mem_cons.1 hb with rfl | hb
  · exact hx a ha
  · exact hs.2.2 a ha b hb

theorem insert_miss_any (ht : hot_blocks_track) (nb : block_count)
    (h : find_block_count ht nb.blocknr = none) :
    ∃ link, insert_block_count_loop nb ht.root [] = Except.ok link ∧
      rb_zip rb_node.NULL link = ht.root ∧
      insert_block_count ht nb =
        (0, ⟨rb_insert_color (rb_link_node nb) link, ht.lock, ht.window_size,
          ht.hot_threshold⟩) ∧
      rb_inorder ht.root = rb_before link ++ rb_after link ∧
      rb_inorder (rb_zip (rb_link_node nb) link) = rb_before link ++ nb :: rb_after link ∧
      rb_inorder (rb_insert_color (rb_link_node nb) link) =
        rb_before link ++ nb :: rb_after link := by
  unfold find_block_count at h
  rcases insert_loop_eq_find nb.blocknr nb.count ht.root [] with ⟨p, hp, _⟩ | ⟨_, link, hl⟩
  · rw [h] at hp; cases hp
  · have hl2 : insert_block_count_loop nb ht.root [] = Except.ok link := hl
    have hz := insert_loop_zip nb ht.root [] link hl2
    simp only [rb_zip] at hz
    refine ⟨link, hl2, hz, ?_, ?_, ?_, ?_⟩
    · simp [insert_block_count, hl2]
    · rw [← hz, rb_inorder_zip]; simp [rb_inorder]
    · rw [rb_inorder_zip]; simp [rb_link_node, rb_inorder]
    · rw [rb_inorder_insert_color, rb_inorder_zip]; simp [rb_link_node, rb_inorder]

theorem insert_hit_any (ht : hot_blocks_track) (nb : block_count) (p : rb_ptr)
    (h : find_block_count ht nb.blocknr = some p) :
    insert_block_count ht nb = (-EEXIST, ht) := by
  unfold find_block_count at h
  rcases insert_loop_eq_find nb.blocknr nb.count ht.root [] with ⟨q, _, hq⟩ | ⟨hn, _⟩
  · have hq2 : insert_block_count_loop nb ht.root [] = Except.error (-EEXIST) := hq
    simp [insert_block_count, hq2]
  · rw [h] at hn; cases hn

theorem find_some_split_any (b : Nat) (t : rb_node) (p : rb_ptr)
    (h : find_block_count_loop b t [] = some p) (v : Nat) :
    rb_inorder (p.store_count v) =
        (rb_before p.up ++ rb_inorder p.rb_left) ++
          ⟨b, v⟩ :: (rb_inorder p.rb_right ++ rb_after p.up) ∧
    rb_inorder t =
        (rb_before p.up ++ rb_inorder p.rb_left) ++
          p.bc :: (rb_inorder p.rb_right ++ rb_after p.up) ∧
    p.bc.blocknr = b ∧ rb_zip p.here p.up = t := by
  obtain ⟨hz, hk⟩ := find_loop_some_spec b t [] p h
  simp only [rb_zip] at hz
  refine ⟨?_, ?_, hk, hz⟩
  · simp [rb_ptr.store_count, rb_inorder_zip, rb_inorder, hk]
  · have := congrArg rb_inorder hz
    rw [rb_inorder_zip] at this
    rw [← this]
    simp [rb_ptr.here, rb_inorder]

theorem find_some_iff_key (b : Nat) (t : rb_node) (hs : keys_ascending (rb_inorder t)) :
    (∃ p, find_block_count_loop b t [] = some p) ↔ b ∈ rb_keys t := by
  constructor
  · rintro ⟨p, hp⟩
    obtain ⟨_, h2, h3, _⟩ := find_some_split_any b t p hp 0
    simp only [rb_keys, h2, List.map_append, List.map_cons, List.mem_append, List.mem_cons]
    right; left; exact h3.symm
  · intro hb
    cases h : find_block_count_loop b t [] with
    | some p => exact ⟨p, rfl⟩
    | none =>
      exfalso
      obtain ⟨link, _, _, h2, h3, h4⟩ := find_none_refines b 1 t hs h
      simp only [rb_keys, h2, List.map_append, List.mem_append, List.mem_map] at hb
      rcases hb with ⟨e, he, rfl⟩ | ⟨e, he, rfl⟩
      · have := h3 e he; omega
      · have := h4 e he; omega

theorem find_some_unique (b : Nat) (t : rb_node) (p : rb_ptr) (e : block_count)
    (hs : keys_ascending (rb_inorder t))
    (h : find_block_count_loop b t [] = some p) (he : e ∈ rb_inorder t) (hk : e.blocknr = b) :
    p.bc = e := by
  obtain ⟨_, h2, h3, h4⟩ := find_some_split b t p hs h 0
  rw [h2] at hs he
  unfold keys_ascending at hs
  rw [List.pairwise_append, List.pairwise_cons] at hs
  rcases List.mem_append.1 he with hx | hx
  · have := h4 e hx; omega
  · rcases List.mem_cons.1 hx with rfl | hy
    · rfl
    · have := hs.2.1.1 e hy; omega

/-- C15: `insert_block_count` returns `-EEXIST` and hands back the tracker
unchanged exactly when its descent meets an entry with the new key (the entry
`find_block_count` would return); otherwise it returns 0 and the new entry is
linked at an empty link of the old tree, between the entries walked before and
after that link. On a search tree the first case happens if and only if the key
is present; in the second the tree with the node linked, and the rebalanced
tree, are search trees again, holding the old keys and the new one. -/
theorem insert_duplicate_signal (ht : hot_blocks_track) (new_bc : block_count) :
    (∀ p, find_block_count ht new_bc.blocknr = some p →
      p.bc.blocknr = new_bc.blocknr ∧ insert_block_count ht new_bc = (-EEXIST, ht)) ∧
    (find_block_count ht new_bc.blocknr = none →
      ∃ link, insert_block_count_loop new_bc ht.root [] = Except.ok link ∧
        rb_zip rb_node.NULL link = ht.root ∧
        insert_block_count ht new_bc =
          (0, ⟨rb_insert_color (rb_link_node new_bc) link, ht.lock, ht.window_size,
            ht.hot_threshold⟩) ∧
        ∃ xs ys, rb_inorder ht.root = xs ++ ys ∧
          rb_inorder (rb_zip (rb_link_node new_bc) link) = xs ++ new_bc :: ys ∧
          rb_inorder (insert_block_count ht new_bc).2.root = xs ++ new_bc :: ys ∧
          (rb_bst ht.root →
            rb_bst (rb_zip (rb_link_node new_bc) link) ∧
            rb_bst (insert_block_count ht new_bc).2.root)) ∧
    (rb_bst ht.root →
      ((insert_block_count ht new_bc).1 = -EEXIST ↔ new_bc.blocknr ∈ rb_keys ht.root) ∧
      ((insert_block_count ht new_bc).1 = 0 ↔ new_bc.blocknr ∉ rb_keys ht.root) ∧
      (∀ k, k ∈ rb_keys (insert_block_count ht new_bc).2.root ↔
        k = new_bc.blocknr ∨ k ∈ rb_keys ht.root)) := by
  refine ⟨?_, ?_, ?_⟩
  · intro p hp
    exact ⟨(find_loop_some_spec _ _ _ _ hp).2, insert_hit_any ht new_bc p hp⟩
  · intro hn
    obtain ⟨link, h1, h2, h3, h4, h5, h6⟩ := insert_miss_any ht new_bc hn
    refine ⟨link, h1, h2, h3, rb_before link, rb_after link, h4, h5, ?_, ?_⟩
    · rw [h3]; exact h6
    · intro hb
      have hs := (rb_bst_iff_ascending _).1 hb
      obtain ⟨link2, g1, _, g3, g4, g5⟩ :=
        find_none_refines new_bc.blocknr new_bc.count ht.root hs hn
      have hl : link2 = link := by
        have g1b : insert_block_count_loop new_bc ht.root [] = Except.ok link2 := g1
        rw [h1] at g1b
        cases g1b; rfl
      subst hl
      have hasc : keys_ascending (rb_before link2 ++ new_bc :: rb_after link2) :=
        keys_ascending_insert_mid _ _ _ (by rw [← g3]; exact hs) g4 g5
      constructor
      · rw [rb_bst_iff_ascending, h5]; exact hasc
      · rw [rb_bst_iff_ascending, h3]; simp only; rw [h6]; exact hasc
  · intro hb
    have hs := (rb_bst_iff_ascending _).1 hb
    have hkey := find_some_iff_key new_bc.blocknr ht.root hs
    cases hf : find_block_count ht new_bc.blocknr with
    | some p =>
      have hin : new_bc.blocknr ∈ rb_keys ht.root := hkey.1 ⟨p, hf⟩
      rw [insert_hit_any ht new_bc p hf]
      refine ⟨by simp [hin], by simp [hin, EEXIST], ?_⟩
      intro k
      constructor
      · intro hk; right; exact hk
      · rintro (rfl | hk)
        · exact hin
        · exact hk
    | none =>
      have hnot : new_bc.blocknr ∉ rb_keys ht.root := by
        intro hin
        obtain ⟨p, hp⟩ := hkey.2 hin
        unfold find_block_count at hf
        rw [hf] at hp; cases hp
      obtain ⟨link, h1, h2, h3, h4, h5, h6⟩ := insert_miss_any ht new_bc hf
      rw [h3]
      refine ⟨by simp [hnot, EEXIST], by simp [hnot], ?_⟩
      intro k
      simp only [rb_keys, h6, h4, List.map_append, List.map_cons, List.mem_append,
        List.mem_cons]
      tauto

/-- C15 (witness): on the search tree holding 3, 5, 8 an insert of key 5 returns
-17 and the tracker is untouched, and an insert of key 6 returns 0 and leaves
the keys 3, 5, 6, 8 in order. -/
theorem insert_duplicate_signal_witness :
    rb_bst (rb_node.node rb_color.RB_BLACK
      (rb_node.node rb_color.RB_RED rb_node.NULL ⟨3, 1⟩ rb_node.NULL) ⟨5, 2⟩
      (rb_node.node rb_color.RB_RED rb_node.NULL ⟨8, 1⟩ rb_node.NULL)) ∧
    insert_block_count ⟨rb_node.node rb_color.RB_BLACK
      (rb_node.node rb_color.RB_RED rb_node.NULL ⟨3, 1⟩ rb_node.NULL) ⟨5, 2⟩
      (rb_node.node rb_color.RB_RED rb_node.NULL ⟨8, 1⟩ rb_node.NULL), true, 1000, 10⟩ ⟨5, 1⟩ =
      (-17, ⟨rb_node.node rb_color.RB_BLACK
        (rb_node.node rb_color.RB_RED rb_node.NULL ⟨3, 1⟩ rb_node.NULL) ⟨5, 2⟩
        (rb_node.node rb_color.RB_RED rb_node.NULL ⟨8, 1⟩ rb_node.NULL), true, 1000, 10⟩) ∧
    rb_keys (insert_block_count ⟨rb_node.node rb_color.RB_BLACK
      (rb_node.node rb_color.RB_RED rb_node.NULL ⟨3, 1⟩ rb_node.NULL) ⟨5, 2⟩
      (rb_node.node rb_color.RB_RED rb_node.NULL ⟨8, 1⟩ rb_node.NULL), true, 1000, 10⟩
      ⟨6, 1⟩).2.root = [3, 5, 6, 8] ∧
    ((insert_block_count ⟨rb_node.node rb_color.RB_BLACK
      (rb_node.node rb_color.RB_RED rb_node.NULL ⟨3, 1⟩ rb_node.NULL) ⟨5, 2⟩
      (rb_node.node rb_color.RB_RED rb_node.NULL ⟨8, 1⟩ rb_node.NULL), true, 1000, 10⟩
      ⟨6, 1⟩).1 = 0 ↔ (6 : Nat) ∉ rb_keys (rb_node.node rb_color.RB_BLACK
      (rb_node.node rb_color.RB_RED rb_node.NULL ⟨3, 1⟩ rb_node.NULL) ⟨5, 2⟩
      (rb_node.node rb_color.RB_RED rb_node.NULL ⟨8, 1⟩ rb_node.NULL))) :=
  ⟨by simp [rb_bst, rb_keys, rb_inorder], by decide, by decide,
    ((insert_duplicate_signal ⟨rb_node.node rb_color.RB_BLACK
      (rb_node.node rb_color.RB_RED rb_node.NULL ⟨3, 1⟩ rb_node.NULL) ⟨5, 2⟩
      (rb_node.node rb_color.RB_RED rb_node.NULL ⟨8, 1⟩ rb_node.NULL), true, 1000, 10⟩
      ⟨6, 1⟩).2.2 (by simp [rb_bst, rb_keys, rb_inorder])).2.1⟩

/-- C16: with a successful allocation `jbd2_init_hot_blocks` returns 0 and
installs a tracker with an empty index, the lock free, and the configured
window and threshold, so that a report right after prints the header and no
entry; with a failed allocation it returns `-ENOMEM` (-12) and the journal,
tracker reference included, is unchanged. -/
theorem init_installs_tracker (window threshold : Nat) (journal : journal_t) :
    jbd2_init_hot_blocks window threshold journal true =
      (0, ⟨journal.j_devname, some ⟨rb_node.NULL, false, window, threshold⟩⟩) ∧
    tracked_entries (jbd2_init_hot_blocks window threshold journal true).2 = [] ∧
    journal_lock_held (jbd2_init_hot_blocks window threshold journal true).2 = false ∧
    (jbd2_print_hot_blocks (jbd2_init_hot_blocks window threshold journal true).2).2 =
      [printk_line.header journal.j_devname] ∧
    printed_entries
      (jbd2_print_hot_blocks (jbd2_init_hot_blocks window threshold journal true).2).2 = [] ∧
    jbd2_init_hot_blocks window threshold journal false = (-ENOMEM, journal) ∧
    (jbd2_init_hot_blocks window threshold journal false).1 = -12 := by
  simp [jbd2_init_hot_blocks, tracked_entries, journal_lock_held, jbd2_print_hot_blocks,
    spin_lock, rb_inorder, print_hot_loop, printed_entries, ENOMEM]

/-- C17: for every tree and block number, when `find_block_count` returns
`NULL` the insert of a new entry with that block number into the same tree
returns 0, not `-EEXIST`; so on an active tracker a record call whose
allocation succeeds always returns 0. -/
theorem duplicate_branch_unreachable (dev : String) (ht : hot_blocks_track) (blocknr count : Nat) :
    (find_block_count ht blocknr = none →
      (insert_block_count ht ⟨blocknr, count⟩).1 = 0 ∧
      (insert_block_count ht ⟨blocknr, count⟩).1 ≠ -EEXIST) ∧
    (find_block_count (spin_lock ht) blocknr = none →
      (insert_block_count (spin_lock ht) ⟨blocknr, 1⟩).1 = 0) ∧
    (jbd2_record_block_access ⟨dev, some ht⟩ blocknr true).1 = 0 := by
  refine ⟨?_, ?_, ?_⟩
  · intro h
    obtain ⟨link, _, _, h3, _⟩ := insert_miss_any ht ⟨blocknr, count⟩ h
    rw [h3]
    exact ⟨rfl, by simp [EEXIST]⟩
  · intro h
    obtain ⟨link, _, _, h3, _⟩ := insert_miss_any (spin_lock ht) ⟨blocknr, 1⟩ h
    rw [h3]
  · rw [record_ret]
    simp

/-- C17 (witness): block 9 is not found in a tree that is not even a search
tree (key 9 sits left of key 5, off the search path): the insert still returns
0, and the record call returns 0. -/
theorem duplicate_branch_unreachable_witness :
    find_block_count ⟨rb_node.node rb_color.RB_BLACK
      (rb_node.node rb_color.RB_RED rb_node.NULL ⟨9, 1⟩ rb_node.NULL) ⟨5, 2⟩ rb_node.NULL,
      false, 1000, 10⟩ 9 = none ∧
    (insert_block_count ⟨rb_node.node rb_color.RB_BLACK
      (rb_node.node rb_color.RB_RED rb_node.NULL ⟨9, 1⟩ rb_node.NULL) ⟨5, 2⟩ rb_node.NULL,
      false, 1000, 10⟩ ⟨9, 1⟩).1 = 0 ∧
    (jbd2_record_block_access ⟨"sda", some ⟨rb_node.node rb_color.RB_BLACK
      (rb_node.node rb_color.RB_RED rb_node.NULL ⟨9, 1⟩ rb_node.NULL) ⟨5, 2⟩ rb_node.NULL,
      false, 1000, 10⟩⟩ 9 true).1 = 0 :=
  ⟨by decide,
    ((duplicate_branch_unreachable "sda" ⟨rb_node.node rb_color.RB_BLACK
      (rb_node.node rb_color.RB_RED rb_node.NULL ⟨9, 1⟩ rb_node.NULL) ⟨5, 2⟩ rb_node.NULL,
      false, 1000, 10⟩ 9 1).1 (by decide)).1,
    by decide⟩

/-- C18: on an index that is a search tree with strictly ordered keys,
`find_block_count` (a total function: the descent ends on every tree) returns
the entry with block number `b` whenever one exists anywhere in the tree,
returns `NULL` if and only if no entry has block number `b`, and whatever it
returns is a node of the tree with that block number. -/
theorem find_block_count_correct (ht : hot_blocks_track) (b : Nat) (hbst : rb_bst ht.root) :
    (∀ e ∈ rb_inorder ht.root, e.blocknr = b →
      (find_block_count ht b).map rb_ptr.bc = some e) ∧
    (find_block_count ht b = none ↔ b ∉ rb_keys ht.root) ∧
    (∀ p, find_block_count ht b = some p →
      p.bc ∈ rb_inorder ht.root ∧ p.bc.blocknr = b ∧ rb_zip p.here p.up = ht.root) := by
  have hs := (rb_bst_iff_ascending _).1 hbst
  have hkey := find_some_iff_key b ht.root hs
  unfold find_block_count
  refine ⟨?_, ?_, ?_⟩
  · intro e he hk
    have hin : b ∈ rb_keys ht.root := by
      simp only [rb_keys, List.mem_map]; exact ⟨e, he, hk⟩
    obtain ⟨p, hp⟩ := hkey.2 hin
    rw [hp, ← find_some_unique b ht.root p e hs hp he hk]
    rfl
  · constructor
    · intro hn hin
      obtain ⟨p, hp⟩ := hkey.2 hin
      rw [hn] at hp; cases hp
    · intro hnot
      cases h : find_block_count_loop b ht.root [] with
      | none => rfl
      | some p => exact absurd (hkey.1 ⟨p, h⟩) hnot
  · intro p hp
    obtain ⟨_, h2, h3, h4⟩ := find_some_split_any b ht.root p hp 0
    refine ⟨?_, h3, h4⟩
    rw [h2]
    simp

/-- C18 (witness): in the search tree holding 3, 5, 8 the lookup of 8 returns
the entry (8, 4) and the lookup of 6 returns `NULL`. -/
theorem find_block_count_correct_witness :
    rb_bst (rb_node.node rb_color.RB_BLACK
      (rb_node.node rb_color.RB_RED rb_node.NULL ⟨3, 1⟩ rb_node.NULL) ⟨5, 2⟩
      (rb_node.node rb_color.RB_RED rb_node.NULL ⟨8, 4⟩ rb_node.NULL)) ∧
    (find_block_count ⟨rb_node.node rb_color.RB_BLACK
      (rb_node.node rb_color.RB_RED rb_node.NULL ⟨3, 1⟩ rb_node.NULL) ⟨5, 2⟩
      (rb_node.node rb_color.RB_RED rb_node.NULL ⟨8, 4⟩ rb_node.NULL), false, 1000, 10⟩ 8).map
        rb_ptr.bc = some ⟨8, 4⟩ ∧
    find_block_count ⟨rb_node.node rb_color.RB_BLACK
      (rb_node.node rb_color.RB_RED rb_node.NULL ⟨3, 1⟩ rb_node.NULL) ⟨5, 2⟩
      (rb_node.node rb_color.RB_RED rb_node.NULL ⟨8, 4⟩ rb_node.NULL), false, 1000, 10⟩ 6 =
        none :=
  ⟨by simp [rb_bst, rb_keys, rb_inorder],
    (find_block_count_correct ⟨rb_node.node rb_color.RB_BLACK
      (rb_node.node rb_color.RB_RED rb_node.NULL ⟨3, 1⟩ rb_node.NULL) ⟨5, 2⟩
      (rb_node.node rb_color.RB_RED rb_node.NULL ⟨8, 4⟩ rb_node.NULL), false, 1000, 10⟩ 8
      (by simp [rb_bst, rb_keys, rb_inorder])).1 ⟨8, 4⟩ (by simp [rb_inorder]) rfl,
    by decide⟩

/-- C19: a successful `jbd2_record_block_access(b)` on an active tracker changes
nothing but the entry of `b`: the entries are the old ones in the old order,
with `b`'s entry bumped in place, or with the new entry `(b, 1)` put in when `b`
was not found; every entry of another block is kept as it is and none is
removed, the tracked block numbers are the old ones and `b`, `window_size` and
`hot_threshold` are unchanged, and on a search tree the lookup of every other
block gives the same count as before. -/
theorem record_frame (dev : String) (ht : hot_blocks_track) (b : Nat) (kmalloc_ok : Bool)
    (hret : (jbd2_record_block_access ⟨dev, some ht⟩ b kmalloc_ok).1 = 0) :
    ∃ root2, (jbd2_record_block_access ⟨dev, some ht⟩ b kmalloc_ok).2 =
        ⟨dev, some ⟨root2, false, ht.window_size, ht.hot_threshold⟩⟩ ∧
      (∃ xs ys,
        (find_block_count ht b = none ∧ rb_inorder ht.root = xs ++ ys ∧
          rb_inorder root2 = xs ++ ⟨b, 1⟩ :: ys) ∨
        (∃ e, e.blocknr = b ∧ rb_inorder ht.root = xs ++ e :: ys ∧
          rb_inorder root2 = xs ++ ⟨b, (e.count + 1) % COUNT_MOD⟩ :: ys)) ∧
      (∀ e ∈ rb_inorder ht.root, e.blocknr ≠ b → e ∈ rb_inorder root2) ∧
      (∀ e ∈ rb_inorder root2, e.blocknr ≠ b → e ∈ rb_inorder ht.root) ∧
      (rb_inorder ht.root).length ≤ (rb_inorder root2).length ∧
      (∀ k, k ∈ rb_keys root2 ↔ k ∈ rb_keys ht.root ∨ k = b) ∧
      (rb_bst ht.root → ∀ b2, b2 ≠ b →
        stored_count (jbd2_record_block_access ⟨dev, some ht⟩ b kmalloc_ok).2 b2 =
          stored_count ⟨dev, some ht⟩ b2) := by
  cases hf : find_block_count ht b with
  | some p =>
    have hf2 : find_block_count_loop b ht.root [] = some p := hf
    obtain ⟨e1, _, _, e4⟩ := stored_count_after_hit dev ht b p kmalloc_ok hf
    obtain ⟨s1, s2, s3, _⟩ :=
      find_some_split_any b ht.root p hf2 ((p.bc.count + 1) % COUNT_MOD)
    refine ⟨p.store_count ((p.bc.count + 1) % COUNT_MOD), by rw [e1], ?_, ?_, ?_, ?_, ?_, ?_⟩
    · exact ⟨_, _, Or.inr ⟨p.bc, s3, s2, s1⟩⟩
    · intro e he hne
      rw [s2] at he
      rw [s1]
      simp only [List.mem_append, List.mem_cons] at he ⊢
      rcases he with h | rfl | h
      · exact Or.inl h
      · exact absurd s3 hne
      · exact Or.inr (Or.inr h)
    · intro e he hne
      rw [s1] at he
      rw [s2]
      simp only [List.mem_append, List.mem_cons] at he ⊢
      rcases he with h | rfl | h
      · exact Or.inl h
      · exact absurd rfl hne
      · exact Or.inr (Or.inr h)
    · rw [s1, s2]; simp
    · intro k
      simp only [rb_keys, s1, s2, List.map_append, List.map_cons, List.mem_append,
        List.mem_cons, s3]
      tauto
    · intro _ b2 hne
      exact e4 b2 hne
  | none =>
    have hok : kmalloc_ok = true := by
      cases kmalloc_ok with
      | true => rfl
      | false =>
        rw [record_ret] at hret
        simp [hf, ENOMEM] at hret
    subst hok
    obtain ⟨link, h1, _, h3, h4, _, h6⟩ := insert_miss_any (spin_lock ht) ⟨b, 1⟩ hf
    have hrec : jbd2_record_block_access ⟨dev, some ht⟩ b true =
        (0, ⟨dev, some ⟨rb_insert_color (rb_link_node ⟨b, 1⟩) link, false, ht.window_size,
          ht.hot_threshold⟩⟩) := by
      have hf3 : find_block_count (spin_lock ht) b = none := hf
      simp only [jbd2_record_block_access, hf3, h3]
      simp [spin_unlock, spin_lock]
    have g4 : rb_inorder ht.root = rb_before link ++ rb_after link := h4
    refine ⟨rb_insert_color (rb_link_node ⟨b, 1⟩) link, by rw [hrec], ?_, ?_, ?_, ?_, ?_, ?_⟩
    · exact ⟨_, _, Or.inl ⟨rfl, g4, h6⟩⟩
    · intro e he _
      rw [g4] at he
      rw [h6]
      simp only [List.mem_append, List.mem_cons] at he ⊢
      tauto
    · intro e he hne
      rw [h6] at he
      rw [g4]
      simp only [List.mem_append, List.mem_cons] at he ⊢
      rcases he with h | rfl | h
      · exact Or.inl h
      · exact absurd rfl hne
      · exact Or.inr h
    · rw [h6, g4]; simp
    · intro k
      simp only [rb_keys, h6, g4, List.map_append, List.map_cons, List.mem_append,
        List.mem_cons]
      tauto
    · intro hb b2 hne
      have hs := (rb_bst_iff_ascending _).1 hb
      obtain ⟨r2, q1, q2⟩ := record_refines dev ht b hs
      rw [q1]
      have hs2 : keys_ascending (rb_inorder r2) := by
        rw [q2]; exact list_record_ascending b _ hs
      rw [stored_count_eq dev _ b2 hs2, stored_count_eq dev _ b2 hs]
      simp only
      rw [q2, list_count_record b b2 _ hs, if_neg hne]

/-- C19 (witness): recording block 8 on a tracker holding (3, 1), (5, 2), (8, 4)
returns 0 and leaves (3, 1), (5, 2), (8, 5); the count of block 5 is still 2. -/
theorem record_frame_witness :
    (jbd2_record_block_access ⟨"sda", some ⟨rb_node.node rb_color.RB_BLACK
      (rb_node.node rb_color.RB_RED rb_node.NULL ⟨3, 1⟩ rb_node.NULL) ⟨5, 2⟩
      (rb_node.node rb_color.RB_RED rb_node.NULL ⟨8, 4⟩ rb_node.NULL), false, 1000, 10⟩⟩
      8 false).1 = 0 ∧
    tracked_entries (jbd2_record_block_access ⟨"sda", some ⟨rb_node.node rb_color.RB_BLACK
      (rb_node.node rb_color.RB_RED rb_node.NULL ⟨3, 1⟩ rb_node.NULL) ⟨5, 2⟩
      (rb_node.node rb_color.RB_RED rb_node.NULL ⟨8, 4⟩ rb_node.NULL), false, 1000, 10⟩⟩
      8 false).2 = [⟨3, 1⟩, ⟨5, 2⟩, ⟨8, 5⟩] ∧
    ∃ root2, (jbd2_record_block_access ⟨"sda", some ⟨rb_node.node rb_color.RB_BLACK
        (rb_node.node rb_color.RB_RED rb_node.NULL ⟨3, 1⟩ rb_node.NULL) ⟨5, 2⟩
        (rb_node.node rb_color.RB_RED rb_node.NULL ⟨8, 4⟩ rb_node.NULL), false, 1000, 10⟩⟩
        8 false).2 = ⟨"sda", some ⟨root2, false, 1000, 10⟩⟩ ∧
      ∀ k, k ∈ rb_keys root2 ↔
        k ∈ rb_keys (rb_node.node rb_color.RB_BLACK
          (rb_node.node rb_color.RB_RED rb_node.NULL ⟨3, 1⟩ rb_node.NULL) ⟨5, 2⟩
          (rb_node.node rb_color.RB_RED rb_node.NULL ⟨8, 4⟩ rb_node.NULL)) ∨ k = 8 :=
  ⟨by decide, by decide,
    (record_frame "sda" ⟨rb_node.node rb_color.RB_BLACK
      (rb_node.node rb_color.RB_RED rb_node.NULL ⟨3, 1⟩ rb_node.NULL) ⟨5, 2⟩
      (rb_node.node rb_color.RB_RED rb_node.NULL ⟨8, 4⟩ rb_node.NULL), false, 1000, 10⟩
      8 false (by decide)).imp (fun _ h => ⟨h.1, h.2.2.2.2.2.1⟩)⟩

/-! ### The lock and the events -/

theorem record_after_find_state (dev : String) (ht : hot_blocks_track) (b : Nat)
    (kmalloc_ok : Bool) :
    jbd2_record_block_access ⟨dev, some ht⟩ b kmalloc_ok =
      ((record_after_find (spin_lock ht) b kmalloc_ok (find_block_count (spin_lock ht) b)).1.1,
        ⟨dev, some
          (record_after_find (spin_lock ht) b kmalloc_ok
            (find_block_count (spin_lock ht) b)).1.2⟩) := by
  unfold jbd2_record_block_access record_after_find
  simp only
  cases find_block_count (spin_lock ht) b with
  | some p => rfl
  | none => cases kmalloc_ok <;> rfl

theorem insert_events_cases (ht : hot_blocks_track) (nb : block_count) :
    (insert_block_count_events ht nb = [] ∧ (insert_block_count ht nb).1 = -EEXIST) ∨
    (insert_block_count_events ht nb = [hot_event.insert nb.blocknr] ∧
      (insert_block_count ht nb).1 = 0) := by
  unfold insert_block_count_events insert_block_count
  cases h : insert_block_count_loop nb ht.root [] with
  | ok link => right; simp
  | error e =>
    left
    rcases insert_loop_eq_find nb.blocknr nb.count ht.root [] with ⟨_, _, hq⟩ | ⟨_, link, hl⟩
    · have hq2 : insert_block_count_loop nb ht.root [] = Except.error (-EEXIST) := hq
      rw [h] at hq2
      cases hq2
      simp
    · have hl2 : insert_block_count_loop nb ht.root [] = Except.ok link := hl
      rw [h] at hl2
      cases hl2

theorem record_after_find_lock (ht : hot_blocks_track) (b : Nat) (kmalloc_ok : Bool)
    (lookup : Option rb_ptr) :
    (record_after_find ht b kmalloc_ok lookup).1.2.lock = false ∧
    lock_run true (record_after_find ht b kmalloc_ok lookup).2 = some false ∧
    (record_after_find ht b kmalloc_ok lookup).2.count hot_event.lock = 0 := by
  unfold record_after_find
  cases lookup with
  | some p => simp [spin_unlock, lock_run]
  | none =>
    cases kmalloc_ok with
    | false => simp [spin_unlock, lock_run]
    | true =>
      rcases insert_events_cases ht ⟨b, 1⟩ with ⟨h, _⟩ | ⟨h, _⟩ <;>
        simp [spin_unlock, lock_run, h]

/-- C20: with the lock free on entry, each of `jbd2_record_block_access`,
`jbd2_print_hot_blocks` and `jbd2_reset_all_block_counts` takes the lock at most
once, never while it is held, and has released it when it returns: the lock is
free in the state returned, on a journal without a tracker it is never taken,
and the locked section of the record call ends with the release for every
outcome of the lookup, the allocation and the insert, the `-ENOMEM` and
`-EEXIST` exits included. -/
theorem lock_balance (journal : journal_t) (blocknr : Nat) (kmalloc_ok : Bool)
    (hfree : journal_lock_held journal = false) :
    (lock_run (journal_lock_held journal)
        (jbd2_record_block_access_events journal blocknr kmalloc_ok) = some false ∧
      (jbd2_record_block_access_events journal blocknr kmalloc_ok).count hot_event.lock ≤ 1 ∧
      journal_lock_held (jbd2_record_block_access journal blocknr kmalloc_ok).2 = false) ∧
    (lock_run (journal_lock_held journal) (jbd2_print_hot_blocks_events journal) = some false ∧
      (jbd2_print_hot_blocks_events journal).count hot_event.lock ≤ 1 ∧
      journal_lock_held (jbd2_print_hot_blocks journal).1 = false) ∧
    (lock_run (journal_lock_held journal) (jbd2_reset_all_block_counts_events journal) =
        some false ∧
      (jbd2_reset_all_block_counts_events journal).count hot_event.lock ≤ 1 ∧
      journal_lock_held (jbd2_reset_all_block_counts journal) = false) ∧
    (journal.j_hot_track = none →
      jbd2_record_block_access_events journal blocknr kmalloc_ok = [] ∧
      jbd2_print_hot_blocks_events journal = [] ∧
      jbd2_reset_all_block_counts_events journal = []) ∧
    (∀ ht lookup,
      (record_after_find (spin_lock ht) blocknr kmalloc_ok lookup).1.2.lock = false ∧
      lock_run true (record_after_find (spin_lock ht) blocknr kmalloc_ok lookup).2 =
        some false ∧
      hot_event.lock ∉ (record_after_find (spin_lock ht) blocknr kmalloc_ok lookup).2) := by
  cases journal with
  | mk dev t =>
    cases t with
    | none =>
      refine ⟨?_, ?_, ?_, ?_, ?_⟩
      · simp [jbd2_record_block_access_events, jbd2_record_block_access, journal_lock_held,
          lock_run]
      · simp [jbd2_print_hot_blocks_events, jbd2_print_hot_blocks, journal_lock_held, lock_run]
      · simp [jbd2_reset_all_block_counts_events, jbd2_reset_all_block_counts,
          journal_lock_held, lock_run]
      · intro _
        simp [jbd2_record_block_access_events, jbd2_print_hot_blocks_events,
          jbd2_reset_all_block_counts_events]
      · intro ht lookup
        obtain ⟨h1, h2, h4⟩ := record_after_find_lock (spin_lock ht) blocknr kmalloc_ok lookup
        exact ⟨h1, h2, List.count_eq_zero.1 h4⟩
    | some ht0 =>
      have hl : ht0.lock = false := hfree
      refine ⟨?_, ?_, ?_, ?_, ?_⟩
      · obtain ⟨h1, h2, h4⟩ := record_after_find_lock (spin_lock ht0) blocknr kmalloc_ok
          (find_block_count (spin_lock ht0) blocknr)
        refine ⟨?_, ?_, ?_⟩
        · simp only [jbd2_record_block_access_events, journal_lock_held, hl, lock_run]
          simpa using h2
        · simp only [jbd2_record_block_access_events, List.count_cons_self, h4]
          omega
        · rw [record_after_find_state]
          exact h1
      · simp [jbd2_print_hot_blocks_events, jbd2_print_hot_blocks, journal_lock_held, lock_run,
          hl, spin_unlock]
      · simp [jbd2_reset_all_block_counts_events, jbd2_reset_all_block_counts,
          journal_lock_held, lock_run, hl, spin_unlock]
      · intro h; cases h
      · intro ht lookup
        obtain ⟨h1, h2, h4⟩ := record_after_find_lock (spin_lock ht) blocknr kmalloc_ok lookup
        exact ⟨h1, h2, List.count_eq_zero.1 h4⟩

/-- C20 (witness): on a tracker holding block 5 with the lock free, a record of
block 9 with a failing allocation returns -12 with the lock taken once and
released; and if the lookup of block 5 had missed, the insert would return -17
and the locked section would still end with the release. -/
theorem lock_balance_witness :
    journal_lock_held ⟨"sda", some
      ⟨rb_node.node rb_color.RB_BLACK rb_node.NULL ⟨5, 2⟩ rb_node.NULL, false, 1000, 10⟩⟩ =
      false ∧
    (jbd2_record_block_access ⟨"sda", some
      ⟨rb_node.node rb_color.RB_BLACK rb_node.NULL ⟨5, 2⟩ rb_node.NULL, false, 1000, 10⟩⟩
      9 false).1 = -12 ∧
    jbd2_record_block_access_events ⟨"sda", some
      ⟨rb_node.node rb_color.RB_BLACK rb_node.NULL ⟨5, 2⟩ rb_node.NULL, false, 1000, 10⟩⟩
      9 false = [hot_event.lock, hot_event.unlock] ∧
    record_after_find (spin_lock
      ⟨rb_node.node rb_color.RB_BLACK rb_node.NULL ⟨5, 2⟩ rb_node.NULL, false, 1000, 10⟩)
      5 true none =
      ((-17, ⟨rb_node.node rb_color.RB_BLACK rb_node.NULL ⟨5, 2⟩ rb_node.NULL, false, 1000, 10⟩),
        [hot_event.unlock]) ∧
    lock_run (journal_lock_held ⟨"sda", some
      ⟨rb_node.node rb_color.RB_BLACK rb_node.NULL ⟨5, 2⟩ rb_node.NULL, false, 1000, 10⟩⟩)
      (jbd2_record_block_access_events ⟨"sda", some
        ⟨rb_node.node rb_color.RB_BLACK rb_node.NULL ⟨5, 2⟩ rb_node.NULL, false, 1000, 10⟩⟩
        9 false) = some false :=
  ⟨by decide, by decide, by decide, by decide,
    (lock_balance ⟨"sda", some
      ⟨rb_node.node rb_color.RB_BLACK rb_node.NULL ⟨5, 2⟩ rb_node.NULL, false, 1000, 10⟩⟩
      9 false (by decide)).1.1⟩

/-! ### The teardown walk on the laid-out index -/

theorem lookup_skip (a : Nat) (pre rest : List (Nat × heap_node))
    (h : ∀ x ∈ pre, x.1 < a) : (pre ++ rest).lookup a = rest.lookup a := by
  induction pre with
  | nil => rfl
  | cons x xs ih =>
    have hx := h x (List.mem_cons_self _ _)
    have hne : (a == x.1) = false := by
      rw [beq_eq_false_iff_ne]; omega
    obtain ⟨k, v⟩ := x
    simp only [List.cons_append, List.lookup_cons, hne]
    exact ih (fun y hy => h y (List.mem_cons_of_mem _ hy))

theorem heap_leftmost_layout (t : rb_node) (a p : Nat) (pre post : List (Nat × heap_node))
    (root fuel : Nat) (ht : t ≠ rb_node.NULL) (ha : 0 < a) (hpre : ∀ x ∈ pre, x.1 < a)
    (hfuel : rb_leftdepth t < fuel) :
    heap_leftmost ⟨pre ++ heap_cells t a p ++ post, [], root⟩ fuel a =
      Except.ok (a * 2 ^ rb_leftdepth t) := by
  induction t generalizing a p pre post fuel with
  | NULL => exact absurd rfl ht
  | node c l bc r ihl _ =>
    cases fuel with
    | zero => omega
    | succ f =>
      have hload : heap_load ⟨pre ++ heap_cells (rb_node.node c l bc r) a p ++ post, [], root⟩ a =
          Except.ok ⟨p, c, (if r = rb_node.NULL then 0 else 2 * a + 1),
            (if l = rb_node.NULL then 0 else 2 * a), bc.blocknr, bc.count⟩ := by
        simp only [heap_load, List.not_mem_nil, if_false, List.append_assoc]
        rw [lookup_skip a pre _ hpre]
        simp [heap_cells, List.lookup_cons]
      unfold heap_leftmost
      rw [hload]
      by_cases hl : l = rb_node.NULL
      · simp [hl, rb_leftdepth]
      · have hne : 2 * a ≠ 0 := by omega
        simp only [hl, if_false, hne]
        have hd : rb_leftdepth (rb_node.node c l bc r) = rb_leftdepth l + 1 := by
          simp [rb_leftdepth, hl]
        rw [hd] at hfuel ⊢
        have key := ihl (2 * a) a
          (pre ++ [(a, ⟨p, c, (if r = rb_node.NULL then 0 else 2 * a + 1), 2 * a,
            bc.blocknr, bc.count⟩)])
          (heap_cells r (2 * a + 1) a ++ post) f hl (by omega)
          (by
            intro x hx
            rcases List.mem_append.1 hx with h1 | h1
            · have := hpre x h1; omega
            · simp only [List.mem_singleton] at h1
              rw [h1]; simp only; omega)
          (by omega)
        have hcells : pre ++ heap_cells (rb_node.node c l bc r) a p ++ post =
            pre ++ [(a, ⟨p, c, (if r = rb_node.NULL then 0 else 2 * a + 1), 2 * a,
              bc.blocknr, bc.count⟩)] ++ heap_cells l (2 * a) a ++
              (heap_cells r (2 * a + 1) a ++ post) := by
          simp [heap_cells, hl]
        rw [hcells, key]
        congr 1
        rw [pow_succ]
        ring

theorem heap_rb_first_layout (t : rb_node) (fuel : Nat) (ht : t ≠ rb_node.NULL)
    (hfuel : rb_leftdepth t < fuel) :
    heap_rb_first (heap_of_tree t) fuel = Except.ok (2 ^ rb_leftdepth t) := by
  have := heap_leftmost_layout t 1 0 [] [] 1 fuel ht (by omega) (by simp) hfuel
  simp only [List.nil_append, List.append_nil, one_mul] at this
  simp only [heap_rb_first, heap_of_tree, ht, if_false]
  simpa using this

theorem rb_inorder_length_shape (t : rb_node) :
    (rb_inorder t).length = rb_shape_size (rb_shape_of t) := by
  induction t with
  | NULL => rfl
  | node c l bc r ihl ihr =>
    simp only [rb_inorder, rb_shape_of, rb_shape_size, List.length_append, List.length_cons,
      ihl, ihr]
    omega

theorem insert_logged_fst (ht : hot_blocks_track) (nb : block_count) :
    (insert_block_count_logged ht nb).1 = insert_block_count ht nb := by
  unfold insert_block_count_logged insert_block_count
  cases insert_block_count_loop nb ht.root [] <;> rfl

theorem record_logged_fst (journal : journal_t) (b : Nat) (kmalloc_ok : Bool) :
    (jbd2_record_block_access_logged journal b kmalloc_ok).1 =
      jbd2_record_block_access journal b kmalloc_ok := by
  unfold jbd2_record_block_access_logged jbd2_record_block_access
  cases journal.j_hot_track with
  | none => rfl
  | some ht =>
    simp only
    cases find_block_count (spin_lock ht) b with
    | some p => rfl
    | none =>
      cases kmalloc_ok with
      | false => rfl
      | true => simp [insert_logged_fst]

theorem cleanup_loop_logged_fst (rb_erase : heap → Nat → heap) (lock_held : Bool) (fuel : Nat)
    (h : heap) (node : Nat) :
    (cleanup_walk_loop_logged rb_erase lock_held fuel h node).1 =
      cleanup_walk_loop rb_erase fuel h node := by
  induction fuel generalizing h node with
  | zero => rfl
  | succ f ih =>
    unfold cleanup_walk_loop_logged cleanup_walk_loop
    by_cases hn : node = 0
    · simp [hn]
    · simp only [hn, if_false]
      cases heap_rb_next (kfree (rb_erase h node) node) f node with
      | error e => rfl
      | ok next => exact ih _ _

theorem cleanup_loop_logged_lock (rb_erase : heap → Nat → heap) (lock_held : Bool) (fuel : Nat)
    (h : heap) (node : Nat) :
    ∀ m ∈ (cleanup_walk_loop_logged rb_erase lock_held fuel h node).2,
      ∃ a, m = mutation.erase a lock_held := by
  induction fuel generalizing h node with
  | zero => simp [cleanup_walk_loop_logged]
  | succ f ih =>
    unfold cleanup_walk_loop_logged
    by_cases hn : node = 0
    · simp [hn]
    · simp only [hn, if_false]
      cases heap_rb_next (kfree (rb_erase h node) node) f node with
      | error e =>
        intro m hm
        simp only [List.mem_singleton] at hm
        exact ⟨node, hm⟩
      | ok next =>
        intro m hm
        simp only [List.mem_cons] at hm
        rcases hm with hm | hm
        · exact ⟨node, hm⟩
        · exact ih _ _ m hm

theorem cleanup_loop_logged_first (rb_erase : heap → Nat → heap) (lock_held : Bool) (fuel : Nat)
    (h : heap) (first : Nat) (hne : first ≠ 0) :
    (cleanup_walk_loop_logged rb_erase lock_held (fuel + 1) h first).2 =
      [mutation.erase first lock_held] := by
  simp [cleanup_walk_loop_logged, hne, heap_rb_next, heap_load, kfree]

theorem cleanup_logged_fst (rb_erase : heap → Nat → heap) (fuel : Nat) (journal : journal_t) :
    (jbd2_cleanup_hot_blocks_logged rb_erase fuel journal).1 =
      jbd2_cleanup_hot_blocks rb_erase fuel journal := by
  unfold jbd2_cleanup_hot_blocks_logged jbd2_cleanup_hot_blocks cleanup_walk
  cases journal.j_hot_track with
  | none => rfl
  | some ht =>
    simp only
    cases heap_rb_first (heap_of_tree ht.root) fuel with
    | error e => rfl
    | ok first =>
      simp only
      rw [← cleanup_loop_logged_fst rb_erase ht.lock fuel (heap_of_tree ht.root) first]
      cases (cleanup_walk_loop_logged rb_erase ht.lock fuel (heap_of_tree ht.root) first).1 <;>
        rfl

theorem cleanup_logged_lock (rb_erase : heap → Nat → heap) (fuel : Nat) (journal : journal_t) :
    ∀ m ∈ (jbd2_cleanup_hot_blocks_logged rb_erase fuel journal).2,
      ∃ a, m = mutation.erase a (journal_lock_held journal) := by
  unfold jbd2_cleanup_hot_blocks_logged journal_lock_held
  cases journal.j_hot_track with
  | none => simp
  | some ht =>
    simp only
    cases heap_rb_first (heap_of_tree ht.root) fuel with
    | error e => simp
    | ok first =>
      simp only
      have := cleanup_loop_logged_lock rb_erase ht.lock fuel (heap_of_tree ht.root) first
      cases (cleanup_walk_loop_logged rb_erase ht.lock fuel (heap_of_tree ht.root) first).1 <;>
        exact this

theorem record_logged_cases (dev : String) (ht : hot_blocks_track) (b : Nat)
    (kmalloc_ok : Bool) :
    ((jbd2_record_block_access_logged ⟨dev, some ht⟩ b kmalloc_ok).2 = [] ∧
      tracker_shape (jbd2_record_block_access ⟨dev, some ht⟩ b kmalloc_ok).2 =
        tracker_shape ⟨dev, some ht⟩) ∨
    ((jbd2_record_block_access_logged ⟨dev, some ht⟩ b kmalloc_ok).2 =
        [mutation.insert b true] ∧
      tracker_shape (jbd2_record_block_access ⟨dev, some ht⟩ b kmalloc_ok).2 ≠
        tracker_shape ⟨dev, some ht⟩ ∧
      (tracked_entries (jbd2_record_block_access ⟨dev, some ht⟩ b kmalloc_ok).2).length =
        (tracked_entries ⟨dev, some ht⟩).length + 1) := by
  cases hf : find_block_count (spin_lock ht) b with
  | some p =>
    left
    have hf2 : find_block_count_loop b ht.root [] = some p := hf
    constructor
    · simp [jbd2_record_block_access_logged, hf]
    · rw [record_found_eq dev ht b p kmalloc_ok hf2]
      obtain ⟨t2, e1, _, _, e4⟩ :=
        find_after_store b ((p.bc.count + 1) % COUNT_MOD) ht.root [] p hf2
      simp only [rb_zip] at e1
      have hs : p.store_count ((p.bc.count + 1) % COUNT_MOD) = t2 := e1
      simp [tracker_shape, hs, e4]
  | none =>
    have hf2 : find_block_count_loop b ht.root [] = none := hf
    cases kmalloc_ok with
    | false =>
      left
      constructor
      · simp [jbd2_record_block_access_logged, hf]
      · rw [record_fail_eq dev ht b hf2]
        simp [tracker_shape]
    | true =>
      right
      obtain ⟨link, h1, _, h3, h4, _, h6⟩ := insert_miss_any (spin_lock ht) ⟨b, 1⟩ hf
      have g4 : rb_inorder ht.root = rb_before link ++ rb_after link := h4
      have hrec : jbd2_record_block_access ⟨dev, some ht⟩ b true =
          (0, ⟨dev, some ⟨rb_insert_color (rb_link_node ⟨b, 1⟩) link, false, ht.window_size,
            ht.hot_threshold⟩⟩) := by
        simp only [jbd2_record_block_access, hf, h3]
        simp [spin_unlock, spin_lock]
      have hlen : (rb_inorder (rb_insert_color (rb_link_node ⟨b, 1⟩) link)).length =
          (rb_inorder ht.root).length + 1 := by
        rw [h6, g4]; simp; omega
      refine ⟨?_, ?_, ?_⟩
      · simp only [jbd2_record_block_access_logged, hf, insert_block_count_logged, h1]
        simp [spin_lock]
      · rw [hrec]
        simp only [tracker_shape, Option.map_some', ne_eq, Option.some.injEq]
        intro hsh
        have := congrArg rb_shape_size hsh
        rw [← rb_inorder_length_shape, ← rb_inorder_length_shape, hlen] at this
        omega
      · rw [hrec]
        exact hlen

/-- C14 (amended): with the lock free on entry, the structural mutations made by
`jbd2_record_block_access` (computed next to its result) are none, with the
links, colours and keys of the index unchanged, or the one insertion of the
block, made on the tracker while its `lock` is set by the operation's own
`spin_lock`, with one entry more afterwards; report and reset leave links,
colours and keys unchanged. `jbd2_cleanup_hot_blocks` makes every one of its
erases with the lock not held, and on a non-empty index (with fuel for the
descent to the first node) it does erase the first entry. -/
theorem insertions_under_lock (journal : journal_t) (blocknr : Nat) (kmalloc_ok : Bool)
    (rb_erase : heap → Nat → heap) (fuel : Nat)
    (hfree : journal_lock_held journal = false) :
    (jbd2_record_block_access_logged journal blocknr kmalloc_ok).1 =
      jbd2_record_block_access journal blocknr kmalloc_ok ∧
    (((jbd2_record_block_access_logged journal blocknr kmalloc_ok).2 = [] ∧
        tracker_shape (jbd2_record_block_access journal blocknr kmalloc_ok).2 =
          tracker_shape journal) ∨
      ((jbd2_record_block_access_logged journal blocknr kmalloc_ok).2 =
          [mutation.insert blocknr true] ∧
        tracker_shape (jbd2_record_block_access journal blocknr kmalloc_ok).2 ≠
          tracker_shape journal ∧
        (tracked_entries (jbd2_record_block_access journal blocknr kmalloc_ok).2).length =
          (tracked_entries journal).length + 1)) ∧
    (∀ m ∈ (jbd2_record_block_access_logged journal blocknr kmalloc_ok).2,
      m.lock_held = true) ∧
    tracker_shape (jbd2_print_hot_blocks journal).1 = tracker_shape journal ∧
    tracker_shape (jbd2_reset_all_block_counts journal) = tracker_shape journal ∧
    (jbd2_cleanup_hot_blocks_logged rb_erase fuel journal).1 =
      jbd2_cleanup_hot_blocks rb_erase fuel journal ∧
    (∀ m ∈ (jbd2_cleanup_hot_blocks_logged rb_erase fuel journal).2,
      m.lock_held = false ∧ ∃ a, m = mutation.erase a false) ∧
    (∀ ht, journal.j_hot_track = some ht → ht.root ≠ rb_node.NULL →
      rb_leftdepth ht.root < fuel →
      (jbd2_cleanup_hot_blocks_logged rb_erase fuel journal).2 =
        [mutation.erase (2 ^ rb_leftdepth ht.root) false]) := by
  have hclean : ∀ m ∈ (jbd2_cleanup_hot_blocks_logged rb_erase fuel journal).2,
      m.lock_held = false ∧ ∃ a, m = mutation.erase a false := by
    intro m hm
    obtain ⟨a, ha⟩ := cleanup_logged_lock rb_erase fuel journal m hm
    rw [hfree] at ha
    exact ⟨by rw [ha]; rfl, a, ha⟩
  refine ⟨record_logged_fst journal blocknr kmalloc_ok, ?_, ?_, ?_, ?_,
    cleanup_logged_fst rb_erase fuel journal, hclean, ?_⟩
  · cases journal with
    | mk dev t =>
      cases t with
      | none => left; simp [jbd2_record_block_access_logged, jbd2_record_block_access]
      | some ht => exact record_logged_cases dev ht blocknr kmalloc_ok
  · cases journal with
    | mk dev t =>
      cases t with
      | none => simp [jbd2_record_block_access_logged]
      | some ht =>
        intro m hm
        rcases record_logged_cases dev ht blocknr kmalloc_ok with ⟨h, _⟩ | ⟨h, _⟩
        · rw [h] at hm; simp at hm
        · rw [h] at hm
          simp only [List.mem_singleton] at hm
          rw [hm]; rfl
  · cases journal with
    | mk dev t =>
      cases t with
      | none => simp [jbd2_print_hot_blocks]
      | some ht => simp [jbd2_print_hot_blocks, tracker_shape, spin_lock, spin_unlock]
  · cases journal with
    | mk dev t =>
      cases t with
      | none => simp [jbd2_reset_all_block_counts]
      | some ht =>
        simp [jbd2_reset_all_block_counts, tracker_shape, spin_lock, spin_unlock, set_root,
          rb_shape_reset_loop]
  · intro ht hj hroot hfuel
    have hl : ht.lock = false := by
      simpa [journal_lock_held, hj] using hfree
    cases fuel with
    | zero => omega
    | succ f =>
      simp only [jbd2_cleanup_hot_blocks_logged, hj,
        heap_rb_first_layout ht.root (f + 1) hroot hfuel]
      have hlog := cleanup_loop_logged_first rb_erase ht.lock f (heap_of_tree ht.root)
        (2 ^ rb_leftdepth ht.root) (by positivity)
      rw [hl] at hlog
      rw [hl]
      cases hr : (cleanup_walk_loop_logged rb_erase false (f + 1) (heap_of_tree ht.root)
        (2 ^ rb_leftdepth ht.root)).1 <;> simp [hr, hlog]

/-- C14 (witness): a first access to block 7 on a new tracker, lock free on
entry: the one mutation is the insertion of block 7 with the lock held, and the
index has one entry more. -/
theorem insertions_under_lock_witness :
    journal_lock_held (fresh_journal 1000 10 "sda") = false ∧
    (jbd2_record_block_access_logged (fresh_journal 1000 10 "sda") 7 true).2 =
      [mutation.insert 7 true] ∧
    (∀ m ∈ (jbd2_record_block_access_logged (fresh_journal 1000 10 "sda") 7 true).2,
      m.lock_held = true) ∧
    tracked_entries (jbd2_record_block_access (fresh_journal 1000 10 "sda") 7 true).2 =
      [⟨7, 1⟩] :=
  ⟨by decide, by decide,
    (insertions_under_lock (fresh_journal 1000 10 "sda") 7 true rb_erase_only_node 2
      (by decide)).2.2.1,
    by decide⟩

/-- C14 (counterexample): on a journal whose tracker holds the single entry
(7, 1), with the lock free, `jbd2_cleanup_hot_blocks` erases the entry (the node
at address 1) while the lock is not held: a structural mutation outside the
lock. -/
theorem cleanup_erases_without_lock :
    journal_lock_held ⟨"sda", some
      ⟨rb_node.node rb_color.RB_BLACK rb_node.NULL ⟨7, 1⟩ rb_node.NULL, false, 1000, 10⟩⟩ =
      false ∧
    (jbd2_cleanup_hot_blocks_logged rb_erase_only_node 2 ⟨"sda", some
      ⟨rb_node.node rb_color.RB_BLACK rb_node.NULL ⟨7, 1⟩ rb_node.NULL, false, 1000, 10⟩⟩).2 =
      [mutation.erase 1 false] ∧
    ¬ (∀ m ∈ (jbd2_cleanup_hot_blocks_logged rb_erase_only_node 2 ⟨"sda", some
      ⟨rb_node.node rb_color.RB_BLACK rb_node.NULL ⟨7, 1⟩ rb_node.NULL, false, 1000, 10⟩⟩).2,
      m.lock_held = true) := by
  have hlog : (jbd2_cleanup_hot_blocks_logged rb_erase_only_node 2 ⟨"sda", some
      ⟨rb_node.node rb_color.RB_BLACK rb_node.NULL ⟨7, 1⟩ rb_node.NULL, false, 1000, 10⟩⟩).2 =
      [mutation.erase 1 false] := by decide
  refine ⟨by decide, hlog, ?_⟩
  rw [hlog]
  intro hall
  have := hall (mutation.erase 1 false) (List.mem_singleton.2 rfl)
  simp [mutation.lock_held] at this

end Hotness
